import Mathlib

/-!
Shallow embedding of the shape-extraction engine of the HoI4 Map Normalizer
Tool (src/src/ShapeFinder2.cpp): the three-pass Connected-Component Labeling
pipeline (`pass1`, `pass2`, `mergeBorders`), its validator
(`errorCheckAllShapes`) and the orchestrator (`findAllShapes`), together with
the data model from `Types.h` / `Constants.h`.

Conventions of the embedding:
* machine integers (`uint32_t`) are `Nat`; the only place where unsigned
  wrap-around is observable is the coordinate arithmetic in
  `getAdjacentPixel`, where we compute modulo `2^32` explicitly;
* the label matrix (`m_label_matrix`, a raw `uint32_t` array) is a function
  from flat indices to labels; the C++ array is uninitialized, but Pass 1
  writes every cell before any cell is read, so initializing with 0 is
  unobservable;
* `m_label_parents` and `label_to_shapeidx` (`std::map<uint32_t,uint32_t>`)
  are association lists with overwriting insertion, mirroring `operator[]`;
* logging (`writeStdout`/`setInfoLine`/`writeDebug`), the graphics worker and
  the stage-output BMP dumps are side effects guarded by program options; they
  do not influence the computed shapes and are elided (we model the
  configuration `quiet, no stage output, no gui`, under which
  `m_label_to_color` is never populated either).  Warnings and the fatal
  error of Pass 3 are modeled explicitly where a claim mentions them.
-/

namespace MapNormalizer

/-- 2^32, the modulus of `uint32_t` arithmetic. -/
def U32 : Nat := 4294967296

/-- An RGB color value (`Types.h`, struct `Color`; channels are `uint8_t`). -/
structure Color where
  r : Nat
  g : Nat
  b : Nat
deriving DecidableEq, Repr

/-- A 2D point (`Types.h`, struct `Point2D`; coordinates are `uint32_t`). -/
structure Point2D where
  x : Nat
  y : Nat
deriving DecidableEq, Repr

/-- A pixel: a point and a color (`Types.h`, struct `Pixel`). -/
structure Pixel where
  point : Point2D
  color : Color
deriving DecidableEq, Repr

/-- A shape (struct `Polygon` as used by `ShapeFinder2.cpp`: pixel list,
source color, unique color, and the two bounding-box corners, constructed in
`buildShape` as `{ {}, color, unique_color, {0,0}, {0,0} }`). -/
structure Polygon where
  pixels : List Pixel
  color : Color
  unique_color : Color
  bottom_left : Point2D
  top_right : Point2D
deriving DecidableEq, Repr

instance : Inhabited Polygon :=
  ⟨⟨[], ⟨0, 0, 0⟩, ⟨0, 0, 0⟩, ⟨0, 0⟩, ⟨0, 0⟩⟩⟩

/-- A list of all shapes (`Types.h`, `PolygonList`). -/
abbrev PolygonList := List Polygon

/-- The color of boundary pixels (`Constants.h`, `BORDER_COLOR`). -/
def BORDER_COLOR : Color := ⟨0, 0, 0⟩

/-- The minimum number of pixels in a valid province
(`ShapeFinder.h` / `Constants.h`, `MIN_SHAPE_SIZE`). -/
def MIN_SHAPE_SIZE : Nat := 8

/-- The type of province (`Types.h`, enum `ProvinceType`). -/
inductive ProvinceType where
  | UNKNOWN
  | LAND
  | SEA
  | LAKE
deriving DecidableEq, Repr

/-- The input image: width/height (`uint32_t`, from the BMP info header) and
the pixel colors in row-major order.  This is the PixelGrid view of `BitMap`:
the engine only reads `info_header.width`, `info_header.height` and the color
of each in-image pixel. -/
structure Image where
  width : Nat
  height : Nat
  data : List Color
deriving DecidableEq, Repr

/-- Well-formedness of an image: dimensions fit in `uint32_t`. -/
def Image.WF (img : Image) : Prop := img.width < U32 ∧ img.height < U32

instance (img : Image) : Decidable img.WF := by
  unfold Image.WF; infer_instance

/-- Modelled from the spec: `xyToIndex` is declared in a utility header absent
from the sources; per spec §3 the grid is "row-major, indexed `y*width + x`". -/
def xyToIndex (img : Image) (x y : Nat) : Nat := y * img.width + x

/-- Modelled from the spec: `getColorAt` is implemented in a utility source
file absent from the sources; per spec §6 `colorAt(x, y)` returns the pixel
color of the decoded image at `(x, y)` (row-major). -/
def getColorAt (img : Image) (x y : Nat) : Color :=
  img.data.getD (xyToIndex img x y) BORDER_COLOR

/-- Modelled from the spec: `isInImage` is implemented in a utility source
file absent from the sources; per spec §3 a point is in the image iff
`0 ≤ x < width` and `0 ≤ y < height`, and per §6 out-of-image queries are
absent. -/
def isInImage (img : Image) (x y : Nat) : Prop :=
  x < img.width ∧ y < img.height

instance (img : Image) (x y : Nat) : Decidable (isInImage img x y) := by
  unfold isInImage; infer_instance

/-- Direction of an adjacent pixel (enum `Direction`, used by
`getAdjacentPixel`).  The enum's header is absent from the sources; modelled
from the spec and the doc comment of `getAdjacentPixel`: LEFT/RIGHT lie on one
axis and UP/DOWN on the other, and the source detects "same axis" by
comparing `(int)dir % 2`. -/
inductive Direction where
  | LEFT
  | UP
  | RIGHT
  | DOWN
  | NONE
deriving DecidableEq, Repr

/-- The underlying integer value of a `Direction`, used for the
axis-parity check `(int)dir1 % 2 == (int)dir2 % 2`. -/
def Direction.val : Direction → Nat
  | .LEFT => 0
  | .UP => 1
  | .RIGHT => 2
  | .DOWN => 3
  | .NONE => 4

/-- One `switch(dir1)` block of `getAdjacentPixel`: move `point` one step in
the given direction, with `uint32_t` wrap-around.  (The source contains this
switch twice, both on `dir1` and both assigning from `point`, so the second
run recomputes the same cell and `dir2` never moves the point.) -/
def moveDir (point : Point2D) : Direction → Point2D
  | .LEFT => ⟨(point.x + (U32 - 1)) % U32, point.y⟩
  | .RIGHT => ⟨(point.x + 1) % U32, point.y⟩
  | .UP => ⟨point.x, (point.y + (U32 - 1)) % U32⟩
  | .DOWN => ⟨point.x, (point.y + 1) % U32⟩
  | .NONE => point

/-- `ShapeFinder::getAdjacentPixel` (ShapeFinder2.cpp): returns the pixel
adjacent to `point` in direction `dir1` (`dir2` is validated but, in the
source as written, never applied: both movement switches dispatch on `dir1`),
provided that pixel is inside the image and not border-colored. -/
def getAdjacentPixel (img : Image) (point : Point2D)
    (dir1 : Direction) (dir2 : Direction := .NONE) : Option Point2D :=
  -- if the directions are along the same axis then we have bad inputs
  if dir2 ≠ Direction.NONE ∧ dir1.val % 2 = dir2.val % 2 then
    none
  else if dir1 = Direction.NONE then
    none
  else
    -- the source contains the movement switch twice, both dispatching on
    -- `dir1` and both assigning from `point`; the second switch therefore
    -- overwrites `adjacent` with the same cell, so the net effect is a
    -- single move by `dir1` (and `dir2` never moves the point)
    if isInImage img (moveDir point dir1).x (moveDir point dir1).y ∧
        getColorAt img (moveDir point dir1).x (moveDir point dir1).y
          ≠ BORDER_COLOR then
      some (moveDir point dir1)
    else
      none

/-! ### Association lists: `std::map<uint32_t, uint32_t>` -/

/-- Lookup in an association list (`std::map::count` / `::at`). -/
def alookup : List (Nat × Nat) → Nat → Option Nat
  | [], _ => none
  | (a, b) :: t, k => if a = k then some b else alookup t k

/-- Overwriting insertion (`std::map::operator[] = v`): replaces the value at
an existing key, otherwise appends the new entry. -/
def mapInsert : List (Nat × Nat) → Nat → Nat → List (Nat × Nat)
  | [], k, v => [(k, v)]
  | (a, b) :: t, k, v => if a = k then (a, v) :: t else (a, b) :: mapInsert t k v

/-- Pointwise update of the flat label matrix. -/
def updFn (m : Nat → Nat) (i v : Nat) : Nat → Nat :=
  fun j => if j = i then v else m j

/-! ### Pass 1 -/

/-- The member / local state of `ShapeFinder::pass1`: the label matrix
`m_label_matrix`, the union-find map `m_label_parents`, the border-pixel
buffer `m_border_pixels` (a member that Pass 1 never touches; the source only
counts border pixels here and fills the buffer in Pass 2), the local
`next_label`, and the local counter `num_border_pixels` that is Pass 1's
return value. -/
structure Pass1State where
  matrix : Nat → Nat
  parents : List (Nat × Nat)
  borderPixels : List Pixel
  nextLabel : Nat
  numBorder : Nat

/-- `ShapeFinder::getLabelAndColor`: the label and color for `point`, with
both reset to `(0, BORDER_COLOR)` (after a warning) when the color at `point`
is a non-border color different from `color`. -/
def getLabelAndColor (img : Image) (matrix : Nat → Nat) (point : Point2D)
    (color : Color) : Nat × Color :=
  let label := matrix (xyToIndex img point.x point.y)
  let color_at := getColorAt img point.x point.y
  if color_at ≠ BORDER_COLOR ∧ color_at ≠ color then
    (0, BORDER_COLOR)
  else
    (label, color_at)

/-- The neighbor-comparison logic of Pass 1 (ShapeFinder2.cpp lines 95-116),
factored over the already-computed `(label, color)` pairs of the left and up
neighbors: the chosen label for the current pixel and the updated parent
map.  `label != next_label` is the source's test for "we have already chosen
an adjacent label". -/
def pass1Choose (nextLabel : Nat) (parents : List (Nat × Nat))
    (lcL lcU : Nat × Color) : Nat × List (Nat × Nat) :=
  let label1 := if lcL.2 ≠ BORDER_COLOR then lcL.1 else nextLabel
  if lcU.2 ≠ BORDER_COLOR then
    if label1 ≠ nextLabel then
      if label1 ≠ lcU.1 then
        (min label1 lcU.1,
         mapInsert parents (max label1 lcU.1) (min label1 lcU.1))
      else (label1, parents)
    else (lcU.1, parents)
  else (label1, parents)

/-- The `(label, color)` pair of the neighbor of `p` in direction `dir`
(ShapeFinder2.cpp lines 57-83): both stay `(0, BORDER_COLOR)` — the
declared defaults — when `getAdjacentPixel` finds no pixel there. -/
def neighborLC (img : Image) (m : Nat → Nat) (p : Point2D) (dir : Direction)
    (color : Color) : Nat × Color :=
  match getAdjacentPixel img p dir with
  | some q => getLabelAndColor img m q color
  | none => (0, BORDER_COLOR)

/-- The body of Pass 1's double loop for one pixel (ShapeFinder2.cpp lines
41-154).  `m_label_matrix[index]` is first set to `next_label`; a border pixel
resets it to 0 and bumps the border counter; otherwise the label is chosen
from the left/up neighbors via `pass1Choose`, recording a parent entry
(overwriting any existing one, as `operator[]` does) when both neighbors
match with different labels. -/
def pass1Step (img : Image) (s : Pass1State) (p : Point2D) : Pass1State :=
  let color := getColorAt img p.x p.y
  let index := xyToIndex img p.x p.y
  let m0 := updFn s.matrix index s.nextLabel
  if color = BORDER_COLOR then
    { s with matrix := updFn m0 index 0, numBorder := s.numBorder + 1 }
  else
    let lcL := neighborLC img m0 p Direction.LEFT color
    let lcU := neighborLC img m0 p Direction.UP color
    let step2 := pass1Choose s.nextLabel s.parents lcL lcU
    { matrix := updFn m0 index step2.1
      parents := step2.2
      borderPixels := s.borderPixels
      nextLabel := if step2.1 = s.nextLabel then s.nextLabel + 1 else s.nextLabel
      numBorder := s.numBorder }

theorem pass1Step_border (img : Image) (s : Pass1State) (p : Point2D)
    (hc : getColorAt img p.x p.y = BORDER_COLOR) :
    pass1Step img s p =
      { s with
        matrix := updFn (updFn s.matrix (xyToIndex img p.x p.y) s.nextLabel)
          (xyToIndex img p.x p.y) 0
        numBorder := s.numBorder + 1 } := by
  unfold pass1Step
  rw [if_pos hc]

theorem pass1Step_nonborder (img : Image) (s : Pass1State) (p : Point2D)
    (hc : getColorAt img p.x p.y ≠ BORDER_COLOR) :
    pass1Step img s p =
      { matrix := updFn (updFn s.matrix (xyToIndex img p.x p.y) s.nextLabel)
          (xyToIndex img p.x p.y)
          (pass1Choose s.nextLabel s.parents
            (neighborLC img (updFn s.matrix (xyToIndex img p.x p.y)
              s.nextLabel) p Direction.LEFT (getColorAt img p.x p.y))
            (neighborLC img (updFn s.matrix (xyToIndex img p.x p.y)
              s.nextLabel) p Direction.UP (getColorAt img p.x p.y))).1
        parents := (pass1Choose s.nextLabel s.parents
            (neighborLC img (updFn s.matrix (xyToIndex img p.x p.y)
              s.nextLabel) p Direction.LEFT (getColorAt img p.x p.y))
            (neighborLC img (updFn s.matrix (xyToIndex img p.x p.y)
              s.nextLabel) p Direction.UP (getColorAt img p.x p.y))).2
        borderPixels := s.borderPixels
        nextLabel :=
          if (pass1Choose s.nextLabel s.parents
            (neighborLC img (updFn s.matrix (xyToIndex img p.x p.y)
              s.nextLabel) p Direction.LEFT (getColorAt img p.x p.y))
            (neighborLC img (updFn s.matrix (xyToIndex img p.x p.y)
              s.nextLabel) p Direction.UP (getColorAt img p.x p.y))).1
            = s.nextLabel
          then s.nextLabel + 1 else s.nextLabel
        numBorder := s.numBorder } := by
  unfold pass1Step
  rw [if_neg hc]

/-- The raster scan order of both passes: left→right within a row,
top→bottom over rows (`for y { for x { ... } }`). -/
def rasterPoints (img : Image) : List Point2D :=
  (List.range img.height).flatMap fun y =>
    (List.range img.width).map fun x => ⟨x, y⟩

/-- The state of Pass 1 after processing the first `k` pixels of the raster
scan (the fresh `ShapeFinder` starts with empty maps and `next_label = 1`). -/
def pass1After (img : Image) (k : Nat) : Pass1State :=
  ((rasterPoints img).take k).foldl (pass1Step img)
    ⟨fun _ => 0, [], [], 1, 0⟩

/-- `ShapeFinder::pass1`: the full raster scan. -/
def pass1 (img : Image) : Pass1State :=
  (rasterPoints img).foldl (pass1Step img) ⟨fun _ => 0, [], [], 1, 0⟩

/-! ### Union-find resolution -/

/-- The loop of `ShapeFinder::getRootLabel`, with explicit fuel: follow
`m_label_parents` until a label with no parent entry is reached.  Because
every parent entry maps a label to a strictly smaller one, `label` itself is
enough fuel for the walk to reach a root (theorem for claim C8). -/
def getRootLabelFuel (parents : List (Nat × Nat)) : Nat → Nat → Nat
  | 0, root => root
  | fuel + 1, root =>
    match alookup parents root with
    | some p => getRootLabelFuel parents fuel p
    | none => root

/-- `ShapeFinder::getRootLabel`: walk the parent chain to the root. -/
def getRootLabel (parents : List (Nat × Nat)) (label : Nat) : Nat :=
  getRootLabelFuel parents label label

/-! ### Pass 2 -/

/-- Modelled from the spec: `getProvinceType` lives in `ProvinceMapBuilder`,
absent from the sources; per spec §1/§6 it is a pure, deterministic
classification `Color → {LAND, SEA, LAKE, UNKNOWN}` consumed by the core. -/
def getProvinceType (_ : Color) : ProvinceType := ProvinceType.UNKNOWN

/-- Modelled from the spec: `generateUniqueColor` lives in
`UniqueColorGenerator`, absent from the sources; per spec §6 it is the
ColorAssigner collaborator, deterministic per run.  No claim depends on the
colors it produces, only on the fields of the shapes it is stored into. -/
def generateUniqueColor : ProvinceType → Color
  | ProvinceType.UNKNOWN => ⟨255, 255, 255⟩
  | ProvinceType.LAND => ⟨128, 64, 32⟩
  | ProvinceType.SEA => ⟨0, 0, 255⟩
  | ProvinceType.LAKE => ⟨64, 128, 255⟩

/-- `addPixelToShape` (ShapeFinder2.cpp lines 163-180): append the pixel and
update the incrementally-maintained bounding box.  Note the `else if`: each
axis updates at most one of the two corners. -/
def addPixelToShape (shape : Polygon) (pixel : Pixel) : Polygon :=
  let shape := { shape with pixels := shape.pixels ++ [pixel] }
  let shape :=
    if pixel.point.x > shape.top_right.x then
      { shape with top_right := ⟨pixel.point.x, shape.top_right.y⟩ }
    else if pixel.point.x < shape.bottom_left.x then
      { shape with bottom_left := ⟨pixel.point.x, shape.bottom_left.y⟩ }
    else shape
  if pixel.point.y > shape.top_right.y then
    { shape with top_right := ⟨shape.top_right.x, pixel.point.y⟩ }
  else if pixel.point.y < shape.bottom_left.y then
    { shape with bottom_left := ⟨shape.bottom_left.x, pixel.point.y⟩ }
  else shape

/-- `buildShape` (ShapeFinder2.cpp lines 182-208): find or create the shape
for `label` (new shapes start with an empty pixel list and both bounding-box
corners at the `(0,0)` sentinel) and add the pixel to it. -/
def buildShape (label : Nat) (color : Color) (shapes : PolygonList)
    (point : Point2D) (label_to_shapeidx : List (Nat × Nat)) :
    PolygonList × List (Nat × Nat) :=
  let shapes1 :=
    if alookup label_to_shapeidx label = none then
      shapes ++ [⟨[], color, generateUniqueColor (getProvinceType color),
                  ⟨0, 0⟩, ⟨0, 0⟩⟩]
    else shapes
  let l2si1 :=
    if alookup label_to_shapeidx label = none then
      mapInsert label_to_shapeidx label shapes.length
    else label_to_shapeidx
  let shapeidx := (alookup l2si1 label).getD 0
  (shapes1.set shapeidx (addPixelToShape (shapes1.getD shapeidx default)
                                         ⟨point, color⟩),
   l2si1)

/-- The state of `ShapeFinder::pass2`: the label matrix (updated to roots),
the border-pixel buffer being filled, the shape list and
`label_to_shapeidx`. -/
structure Pass2State where
  matrix : Nat → Nat
  borderPixels : List Pixel
  shapes : PolygonList
  l2si : List (Nat × Nat)

/-- The body of Pass 2's double loop for one pixel (ShapeFinder2.cpp lines
223-242): border pixels are pushed onto `m_border_pixels`; other pixels have
their label replaced by its root and are added to their shape. -/
def pass2Step (img : Image) (parents : List (Nat × Nat)) (st : Pass2State)
    (p : Point2D) : Pass2State :=
  let index := xyToIndex img p.x p.y
  let color := getColorAt img p.x p.y
  if color = BORDER_COLOR then
    { st with borderPixels := st.borderPixels ++ [⟨p, color⟩] }
  else
    let label := getRootLabel parents (st.matrix index)
    { matrix := updFn st.matrix index label
      borderPixels := st.borderPixels
      shapes := (buildShape label color st.shapes p st.l2si).1
      l2si := (buildShape label color st.shapes p st.l2si).2 }

/-- `ShapeFinder::pass2`: raster scan building the shape list (the shape
list and `label_to_shapeidx` start empty). -/
def pass2 (img : Image) (parents : List (Nat × Nat)) (matrix : Nat → Nat) :
    Pass2State :=
  (rasterPoints img).foldl (pass2Step img parents)
    ⟨matrix, [], [], []⟩

/-! ### Pass 3: mergeBorders -/

/-- The points scanned by the fallback search of `mergeBorders`
(ShapeFinder2.cpp lines 285-296): `for(y2 = y; y2 < height) for(x2 = x;
x2 < width)` — every row from `y` down, and in each row only the columns
from `x` to the right (the inner loop restarts at `x`, not at 0). -/
def quadPoints (img : Image) (x y : Nat) : List Point2D :=
  (List.range' y (img.height - y)).flatMap fun y2 =>
    (List.range' x (img.width - x)).map fun x2 => ⟨x2, y2⟩

/-- The fallback search itself: the first point of `quadPoints` whose color
is not the border color (the `found` flag in the source stops both loops at
the first hit). -/
def findNonBorderQuad (img : Image) (x y : Nat) : Option Point2D :=
  (quadPoints img x y).find? fun q =>
    decide (getColorAt img q.x q.y ≠ BORDER_COLOR)

/-- The choice of `merge_with` for a border pixel (ShapeFinder2.cpp lines
271-305): the left neighbor if it exists and is not border-colored, else the
up neighbor likewise, else the fallback scan; `none` when the fallback finds
nothing (the fatal "entire image is border" case). -/
def mergeTarget (img : Image) (point : Point2D) : Option Point2D :=
  match getAdjacentPixel img point Direction.LEFT with
  | some q => some q
  | none =>
    match getAdjacentPixel img point Direction.UP with
    | some q => some q
    | none => findNonBorderQuad img point.x point.y

/-- Failure modes of `mergeBorders`: the fatal "no further color pixels
found" early return, and `label_to_shapeidx.at(label)` throwing
(`std::out_of_range`) on a label with no shape. -/
inductive MergeErr where
  | allBorder
  | missingLabel
deriving DecidableEq, Repr

/-- The body of `mergeBorders`' loop for one border pixel: find the merge
target, add the pixel to the target's shape and overwrite the pixel's label
matrix entry with the target's label. -/
def mergeStep (img : Image) (l2si : List (Nat × Nat))
    (shapes : PolygonList) (matrix : Nat → Nat) (pixel : Pixel) :
    Except MergeErr (PolygonList × (Nat → Nat)) :=
  match mergeTarget img pixel.point with
  | none => Except.error MergeErr.allBorder
  | some merge_with =>
    match alookup l2si (matrix (xyToIndex img merge_with.x merge_with.y)) with
    | none => Except.error MergeErr.missingLabel
    | some shapeidx =>
      Except.ok
        (shapes.set shapeidx
          (addPixelToShape (shapes.getD shapeidx default) pixel),
         updFn matrix (xyToIndex img pixel.point.x pixel.point.y)
           (matrix (xyToIndex img merge_with.x merge_with.y)))

/-- The loop of `ShapeFinder::mergeBorders` over the border-pixel buffer. -/
def mergeGo (img : Image) (l2si : List (Nat × Nat)) :
    PolygonList → (Nat → Nat) → List Pixel →
    Except MergeErr (PolygonList × (Nat → Nat))
  | shapes, matrix, [] => Except.ok (shapes, matrix)
  | shapes, matrix, pixel :: rest =>
    match mergeStep img l2si shapes matrix pixel with
    | Except.error e => Except.error e
    | Except.ok (shapes', matrix') => mergeGo img l2si shapes' matrix' rest

/-- `ShapeFinder::mergeBorders` (ShapeFinder2.cpp lines 250-320). -/
def mergeBorders (img : Image) (st : Pass2State) :
    Except MergeErr (PolygonList × (Nat → Nat)) :=
  mergeGo img st.l2si st.shapes st.matrix st.borderPixels

/-! ### Validator -/

/-- Modelled from the spec: `calcShapeDims` is declared in `ShapeFinder.h`
but implemented in a source file absent from the sources; per spec §4.4 the
extent of a shape is `(max.x − min.x + 1, max.y − min.y + 1)`. -/
def calcShapeDims (shape : Polygon) : Nat × Nat :=
  (shape.top_right.x - shape.bottom_left.x + 1,
   shape.top_right.y - shape.bottom_left.y + 1)

/-- Modelled from the spec: `isShapeTooLarge` is declared in `ShapeFinder.h`
but implemented in a source file absent from the sources; per spec §4.4 a
shape is too large when its extent exceeds one-eighth of the corresponding
image dimension. -/
def isShapeTooLarge (w h : Nat) (img : Image) : Prop :=
  8 * w > img.width ∨ 8 * h > img.height

instance (w h : Nat) (img : Image) : Decidable (isShapeTooLarge w h img) := by
  unfold isShapeTooLarge; infer_instance

/-- The loop of `ShapeFinder::errorCheckAllShapes` (ShapeFinder2.cpp lines
385-413): `index` is incremented at the top of the body (so warnings carry
1-based indices), a minimum-size warning `(index, pixel count)` is emitted
and `problematic_shapes` incremented when the pixel count is at most
`MIN_SHAPE_SIZE`, and an oversized-bounding-box warning is emitted (but not
counted) when the shape is too large. -/
def errorCheckGo (img : Image) :
    Nat → Nat → PolygonList → List (Nat × Nat) × List Nat × Nat
  | _, problematic, [] => ([], [], problematic)
  | index, problematic, shape :: rest =>
    let index := index + 1
    let small := shape.pixels.length ≤ MIN_SHAPE_SIZE
    let dims := calcShapeDims shape
    let large := isShapeTooLarge dims.1 dims.2 img
    let tail := errorCheckGo img index
      (if small then problematic + 1 else problematic) rest
    ((if small then [(index, shape.pixels.length)] else []) ++ tail.1,
     (if large then [index] else []) ++ tail.2.1,
     tail.2.2)

/-- `ShapeFinder::errorCheckAllShapes`: returns the minimum-size warnings,
the oversized-bounding-box warnings (as 1-based shape indices) and — as the
function's return value — `none` when no shape was problematic, otherwise
the number of problematic (too-small) shapes. -/
def errorCheckAllShapes (img : Image) (shapes : PolygonList) :
    List (Nat × Nat) × List Nat × Option Nat :=
  let r := errorCheckGo img 0 0 shapes
  (r.1, r.2.1, if r.2.2 = 0 then none else some r.2.2)

/-! ### Orchestrator -/

/-- The observable outcome of `ShapeFinder::findAllShapes`: the returned
shape list, whether the fatal error of Pass 3 was reported (in which case
the list is empty and the validator never ran), and the validator's
warnings. -/
structure FindResult where
  shapes : PolygonList
  fatal : Bool
  minSizeWarnings : List (Nat × Nat)
  tooLargeWarnings : List Nat
deriving DecidableEq, Repr

instance : Inhabited FindResult := ⟨⟨[], false, [], []⟩⟩

/-- `ShapeFinder::findAllShapes` (ShapeFinder2.cpp lines 322-378): Pass 1,
Pass 2, `mergeBorders`, then the advisory `errorCheckAllShapes`.  A failed
`mergeBorders` yields the empty shape list with the fatal flag (the
`writeError` event); a thrown `std::out_of_range` from
`label_to_shapeidx.at` would propagate, modeled as `none`. -/
def findAllShapes (img : Image) : Option FindResult :=
  match mergeBorders img (pass2 img (pass1 img).parents (pass1 img).matrix) with
  | Except.error MergeErr.allBorder => some ⟨[], true, [], []⟩
  | Except.error MergeErr.missingLabel => none
  | Except.ok (shapes, _) =>
    some ⟨shapes, false, (errorCheckAllShapes img shapes).1,
          (errorCheckAllShapes img shapes).2.1⟩

/-- The shape list produced by the three passes alone (no validator): used to
state that validation is advisory. -/
def passesShapes (img : Image) : Option PolygonList :=
  match mergeBorders img (pass2 img (pass1 img).parents (pass1 img).matrix) with
  | Except.error _ => none
  | Except.ok (shapes, _) => some shapes

/-! ### Helper lemmas: association lists and matrix updates -/

theorem alookup_mapInsert_self (m : List (Nat × Nat)) (k v : Nat) :
    alookup (mapInsert m k v) k = some v := by
  induction m with
  | nil => simp [mapInsert, alookup]
  | cons hd t ih =>
    obtain ⟨a, b⟩ := hd
    by_cases h : a = k
    · simp [mapInsert, alookup, h]
    · simp only [mapInsert, if_neg h]
      simp only [alookup, if_neg h]
      exact ih

theorem alookup_mapInsert_ne (m : List (Nat × Nat)) (k v k' : Nat)
    (h : k' ≠ k) : alookup (mapInsert m k v) k' = alookup m k' := by
  have h' : k ≠ k' := fun he => h he.symm
  induction m with
  | nil => simp [mapInsert, alookup, h']
  | cons hd t ih =>
    obtain ⟨a, b⟩ := hd
    by_cases ha : a = k
    · subst ha
      simp only [mapInsert, if_pos rfl]
      simp only [alookup, if_neg h']
    · simp only [mapInsert, if_neg ha]
      by_cases ha' : a = k'
      · simp only [alookup, if_pos ha']
      · simp only [alookup, if_neg ha']
        exact ih

theorem mem_mapInsert (m : List (Nat × Nat)) (k v : Nat) :
    ∀ pr ∈ mapInsert m k v, pr = (k, v) ∨ pr ∈ m := by
  induction m with
  | nil =>
    intro pr hpr
    have : mapInsert [] k v = [(k, v)] := rfl
    rw [this] at hpr
    exact Or.inl (List.mem_singleton.mp hpr)
  | cons hd t ih =>
    obtain ⟨a, b⟩ := hd
    intro pr hpr
    have hins : mapInsert ((a, b) :: t) k v
        = if a = k then (a, v) :: t else (a, b) :: mapInsert t k v := rfl
    rw [hins] at hpr
    by_cases h : a = k
    · rw [if_pos h] at hpr
      rcases List.mem_cons.mp hpr with h1 | h1
      · exact Or.inl (by rw [h1, h])
      · exact Or.inr (List.mem_cons_of_mem _ h1)
    · rw [if_neg h] at hpr
      rcases List.mem_cons.mp hpr with h1 | h1
      · exact Or.inr (List.mem_cons.mpr (Or.inl h1))
      · rcases ih pr h1 with h2 | h2
        · exact Or.inl h2
        · exact Or.inr (List.mem_cons_of_mem _ h2)

theorem alookup_mem {m : List (Nat × Nat)} {k v : Nat}
    (h : alookup m k = some v) : (k, v) ∈ m := by
  induction m with
  | nil => simp [alookup] at h
  | cons hd t ih =>
    obtain ⟨a, b⟩ := hd
    have heq : alookup ((a, b) :: t) k
        = if a = k then some b else alookup t k := rfl
    rw [heq] at h
    by_cases ha : a = k
    · rw [if_pos ha] at h
      injection h with hbv
      subst ha; subst hbv
      exact List.mem_cons_self _ _
    · rw [if_neg ha] at h
      exact List.mem_cons_of_mem _ (ih h)

@[simp] theorem updFn_self (m : Nat → Nat) (i v : Nat) : updFn m i v i = v := by
  simp [updFn]

theorem updFn_ne (m : Nat → Nat) (i v j : Nat) (h : j ≠ i) :
    updFn m i v j = m j := by
  simp [updFn, h]

/-! ### Helper lemmas: the raster scan -/

/-- Flat-index decoding of a raster position. -/
def ofIndex (w i : Nat) : Point2D := ⟨i % w, i / w⟩

theorem rasterPoints_eq_map (img : Image) :
    rasterPoints img =
      (List.range (img.height * img.width)).map (ofIndex img.width) := by
  unfold rasterPoints
  generalize img.width = w
  induction img.height with
  | zero => simp
  | succ h ih =>
    rw [List.range_succ, List.flatMap_append, ih, Nat.succ_mul,
        List.range_add, List.map_append]
    congr 1
    simp only [List.flatMap_singleton, List.map_map]
    apply List.map_congr_left
    intro j hj
    have hjw : j < w := List.mem_range.mp hj
    have hw : 0 < w := by omega
    have h1 : (h * w + j) % w = j := by
      rw [Nat.add_comm, Nat.add_mul_mod_self_right, Nat.mod_eq_of_lt hjw]
    have h2 : (h * w + j) / w = h := by
      rw [Nat.add_comm, Nat.add_mul_div_right _ _ hw,
          Nat.div_eq_of_lt hjw, Nat.zero_add]
    simp [ofIndex, Function.comp_apply, h1, h2]

theorem mem_rasterPoints (img : Image) (q : Point2D) :
    q ∈ rasterPoints img ↔ q.x < img.width ∧ q.y < img.height := by
  unfold rasterPoints
  simp only [List.mem_flatMap, List.mem_map, List.mem_range]
  constructor
  · rintro ⟨y, hy, x, hx, rfl⟩
    exact ⟨hx, hy⟩
  · intro ⟨hx, hy⟩
    exact ⟨q.y, hy, q.x, hx, rfl⟩

theorem ofIndex_inj {w : Nat} {i j : Nat} (h : ofIndex w i = ofIndex w j) :
    i = j := by
  have hx : i % w = j % w := congrArg Point2D.x h
  have hy : i / w = j / w := congrArg Point2D.y h
  calc i = w * (i / w) + i % w := (Nat.div_add_mod i w).symm
    _ = w * (j / w) + j % w := by rw [hx, hy]
    _ = j := Nat.div_add_mod j w

theorem rasterPoints_nodup (img : Image) : (rasterPoints img).Nodup := by
  rw [rasterPoints_eq_map]
  exact (List.nodup_range _).map_on (fun i _ j _ h => ofIndex_inj h)

/-- Decomposing the raster list around one point: the point is in the image,
the prefix has exactly the pixels that precede it in raster order, and every
in-image point with a smaller raster position is in the prefix. -/
theorem raster_decomp {img : Image} {A B : List Point2D} {p : Point2D}
    (h : rasterPoints img = A ++ p :: B) :
    p.x < img.width ∧ p.y < img.height ∧
      A.length = p.y * img.width + p.x ∧
      ∀ q : Point2D, q.x < img.width →
        q.y * img.width + q.x < p.y * img.width + p.x → q ∈ A := by
  have hmem : p ∈ rasterPoints img := by
    rw [h]; exact List.mem_append_right _ (List.mem_cons_self _ _)
  obtain ⟨hpx, hpy⟩ := (mem_rasterPoints img p).mp hmem
  have hw : 0 < img.width := by omega
  have hmap := rasterPoints_eq_map img
  set w := img.width with hwdef
  set N := img.height * img.width with hNdef
  have hL : (List.range N).map (ofIndex w) = A ++ p :: B := by
    rw [← hmap, h]
  have hlen : N = A.length + (B.length + 1) := by
    have := congrArg List.length hL
    simpa using this
  have hkN : A.length < N := by omega
  have hpk : p = ofIndex w A.length := by
    have h1 : (A ++ p :: B)[A.length]? = some p := by
      rw [List.getElem?_append_right (Nat.le_refl _)]
      simp
    have h2 : ((List.range N).map (ofIndex w))[A.length]?
        = some (ofIndex w A.length) := by
      simp [List.getElem?_map, List.getElem?_range hkN]
    rw [hL] at h2
    exact Option.some.inj (h1.symm.trans h2)
  have hpx' : p.x = A.length % w := congrArg Point2D.x hpk
  have hpy' : p.y = A.length / w := congrArg Point2D.y hpk
  have hklen : A.length = p.y * w + p.x := by
    rw [hpx', hpy', Nat.mul_comm, Nat.div_add_mod]
  have hA : A = (List.range A.length).map (ofIndex w) := by
    have h1 : (A ++ p :: B).take A.length = A := List.take_left A _
    rw [← hL] at h1
    rw [← List.map_take, List.take_range, Nat.min_eq_left hkN.le] at h1
    exact h1.symm
  refine ⟨hpx, hpy, hklen, ?_⟩
  intro q hqx hqlt
  have hofq : ofIndex w (q.y * w + q.x) = q := by
    unfold ofIndex
    have hmod : (q.y * w + q.x) % w = q.x := by
      rw [Nat.add_comm, Nat.add_mul_mod_self_right, Nat.mod_eq_of_lt hqx]
    have hdiv : (q.y * w + q.x) / w = q.y := by
      rw [Nat.add_comm, Nat.add_mul_div_right _ _ hw,
          Nat.div_eq_of_lt hqx, Nat.zero_add]
    rw [hmod, hdiv]
  rw [hA]
  exact List.mem_map.mpr ⟨q.y * w + q.x, List.mem_range.mpr (by omega), hofq⟩

/-! ### Characterizing `getAdjacentPixel` -/

theorem getAdjacentPixel_left (img : Image) (p : Point2D)
    (hW : img.width < U32) (hx : p.x < img.width) :
    getAdjacentPixel img p Direction.LEFT =
      if 0 < p.x ∧ p.y < img.height ∧
          getColorAt img (p.x - 1) p.y ≠ BORDER_COLOR
      then some ⟨p.x - 1, p.y⟩ else none := by
  have hU : U32 = 4294967296 := rfl
  unfold getAdjacentPixel
  rw [if_neg (by decide), if_neg (by decide)]
  by_cases hx0 : 0 < p.x
  · have hmove : moveDir p Direction.LEFT = (⟨p.x - 1, p.y⟩ : Point2D) := by
      have h0 : moveDir p Direction.LEFT
          = (⟨(p.x + (U32 - 1)) % U32, p.y⟩ : Point2D) := rfl
      have hmod : (p.x + (U32 - 1)) % U32 = p.x - 1 := by
        have h1 : p.x + (U32 - 1) = (p.x - 1) + U32 := by omega
        rw [h1, Nat.add_mod_right, Nat.mod_eq_of_lt (by omega)]
      rw [h0, hmod]
    rw [hmove]
    show (if isInImage img (p.x - 1) p.y ∧
        getColorAt img (p.x - 1) p.y ≠ BORDER_COLOR
      then some (⟨p.x - 1, p.y⟩ : Point2D) else none) = _
    by_cases hcol : p.y < img.height ∧ getColorAt img (p.x - 1) p.y ≠ BORDER_COLOR
    · rw [if_pos ⟨⟨by omega, hcol.1⟩, hcol.2⟩, if_pos ⟨hx0, hcol⟩]
    · rw [if_neg (fun hq => hcol ⟨hq.1.2, hq.2⟩),
          if_neg (fun hq => hcol ⟨hq.2.1, hq.2.2⟩)]
  · have hmove : moveDir p Direction.LEFT = (⟨U32 - 1, p.y⟩ : Point2D) := by
      have h0 : moveDir p Direction.LEFT
          = (⟨(p.x + (U32 - 1)) % U32, p.y⟩ : Point2D) := rfl
      have hmod : (p.x + (U32 - 1)) % U32 = U32 - 1 := by
        have hx0' : p.x = 0 := by omega
        rw [hx0', Nat.zero_add, Nat.mod_eq_of_lt (by omega)]
      rw [h0, hmod]
    rw [hmove]
    show (if isInImage img (U32 - 1) p.y ∧
        getColorAt img (U32 - 1) p.y ≠ BORDER_COLOR
      then some (⟨U32 - 1, p.y⟩ : Point2D) else none) = _
    rw [if_neg (fun hq => absurd hq.1.1 (by omega)),
        if_neg (fun hq => absurd hq.1 hx0)]

theorem getAdjacentPixel_up (img : Image) (p : Point2D)
    (hH : img.height < U32) (hy : p.y < img.height) :
    getAdjacentPixel img p Direction.UP =
      if 0 < p.y ∧ p.x < img.width ∧
          getColorAt img p.x (p.y - 1) ≠ BORDER_COLOR
      then some ⟨p.x, p.y - 1⟩ else none := by
  have hU : U32 = 4294967296 := rfl
  unfold getAdjacentPixel
  rw [if_neg (by decide), if_neg (by decide)]
  by_cases hy0 : 0 < p.y
  · have hmove : moveDir p Direction.UP = (⟨p.x, p.y - 1⟩ : Point2D) := by
      have h0 : moveDir p Direction.UP
          = (⟨p.x, (p.y + (U32 - 1)) % U32⟩ : Point2D) := rfl
      have hmod : (p.y + (U32 - 1)) % U32 = p.y - 1 := by
        have h1 : p.y + (U32 - 1) = (p.y - 1) + U32 := by omega
        rw [h1, Nat.add_mod_right, Nat.mod_eq_of_lt (by omega)]
      rw [h0, hmod]
    rw [hmove]
    show (if isInImage img p.x (p.y - 1) ∧
        getColorAt img p.x (p.y - 1) ≠ BORDER_COLOR
      then some (⟨p.x, p.y - 1⟩ : Point2D) else none) = _
    by_cases hcol : p.x < img.width ∧ getColorAt img p.x (p.y - 1) ≠ BORDER_COLOR
    · rw [if_pos ⟨⟨hcol.1, by omega⟩, hcol.2⟩, if_pos ⟨hy0, hcol⟩]
    · rw [if_neg (fun hq => hcol ⟨hq.1.1, hq.2⟩),
          if_neg (fun hq => hcol ⟨hq.2.1, hq.2.2⟩)]
  · have hmove : moveDir p Direction.UP = (⟨p.x, U32 - 1⟩ : Point2D) := by
      have h0 : moveDir p Direction.UP
          = (⟨p.x, (p.y + (U32 - 1)) % U32⟩ : Point2D) := rfl
      have hmod : (p.y + (U32 - 1)) % U32 = U32 - 1 := by
        have hy0' : p.y = 0 := by omega
        rw [hy0', Nat.zero_add, Nat.mod_eq_of_lt (by omega)]
      rw [h0, hmod]
    rw [hmove]
    show (if isInImage img p.x (U32 - 1) ∧
        getColorAt img p.x (U32 - 1) ≠ BORDER_COLOR
      then some (⟨p.x, U32 - 1⟩ : Point2D) else none) = _
    rw [if_neg (fun hq => absurd hq.1.2 (by omega)),
        if_neg (fun hq => absurd hq.1 hy0)]

/-- C10: for every in-image point, `getAdjacentPixel` only ever returns an
in-image, non-border point; at the left/top edge the wrapped `uint32_t`
coordinate falls outside the image so the result is `none`; and the result is
`none` whenever `dir1` is `NONE` or `dir2` is a direction on the same axis as
`dir1`. -/
theorem getAdjacentPixel_safety (img : Image) (p : Point2D)
    (hwf : img.WF) (hx : p.x < img.width) (hy : p.y < img.height) :
    (∀ dir1 dir2 q, getAdjacentPixel img p dir1 dir2 = some q →
        isInImage img q.x q.y ∧ getColorAt img q.x q.y ≠ BORDER_COLOR)
    ∧ (p.x = 0 → getAdjacentPixel img p Direction.LEFT = none)
    ∧ (p.y = 0 → getAdjacentPixel img p Direction.UP = none)
    ∧ (∀ dir2, getAdjacentPixel img p Direction.NONE dir2 = none)
    ∧ (∀ dir1 dir2, dir2 ≠ Direction.NONE →
        dir1.val % 2 = dir2.val % 2 →
        getAdjacentPixel img p dir1 dir2 = none) := by
  obtain ⟨hW, hH⟩ := hwf
  refine ⟨?_, ?_, ?_, ?_, ?_⟩
  · intro dir1 dir2 q hq
    unfold getAdjacentPixel at hq
    split_ifs at hq with h1 h2 h3
    injection hq with hq'
    subst hq'
    exact h3
  · intro hx0
    rw [getAdjacentPixel_left img p hW hx, if_neg (by omega)]
  · intro hy0
    rw [getAdjacentPixel_up img p hH hy, if_neg (by omega)]
  · intro dir2
    unfold getAdjacentPixel
    split_ifs with h1 h2 h3
    any_goals rfl
    exact absurd rfl h2
  · intro dir1 dir2 h2 hax
    unfold getAdjacentPixel
    rw [if_pos ⟨h2, hax⟩]

/-- Witness for `getAdjacentPixel_safety` at a concrete image and point. -/
theorem getAdjacentPixel_safety_witness :
    (⟨2, 2, [⟨255, 0, 0⟩, ⟨255, 0, 0⟩, ⟨255, 0, 0⟩, ⟨255, 0, 0⟩]⟩ :
        Image).WF ∧ (1 : Nat) < 2 ∧ (0 : Nat) < 2 ∧
      ((∀ dir1 dir2 q,
          getAdjacentPixel ⟨2, 2, [⟨255, 0, 0⟩, ⟨255, 0, 0⟩, ⟨255, 0, 0⟩,
            ⟨255, 0, 0⟩]⟩ ⟨1, 0⟩ dir1 dir2 = some q →
          isInImage ⟨2, 2, [⟨255, 0, 0⟩, ⟨255, 0, 0⟩, ⟨255, 0, 0⟩,
            ⟨255, 0, 0⟩]⟩ q.x q.y ∧
          getColorAt ⟨2, 2, [⟨255, 0, 0⟩, ⟨255, 0, 0⟩, ⟨255, 0, 0⟩,
            ⟨255, 0, 0⟩]⟩ q.x q.y ≠ BORDER_COLOR)
        ∧ ((1 : Nat) = 0 → getAdjacentPixel ⟨2, 2, [⟨255, 0, 0⟩,
            ⟨255, 0, 0⟩, ⟨255, 0, 0⟩, ⟨255, 0, 0⟩]⟩ ⟨1, 0⟩
            Direction.LEFT = none)
        ∧ ((0 : Nat) = 0 → getAdjacentPixel ⟨2, 2, [⟨255, 0, 0⟩,
            ⟨255, 0, 0⟩, ⟨255, 0, 0⟩, ⟨255, 0, 0⟩]⟩ ⟨1, 0⟩
            Direction.UP = none)
        ∧ (∀ dir2, getAdjacentPixel ⟨2, 2, [⟨255, 0, 0⟩, ⟨255, 0, 0⟩,
            ⟨255, 0, 0⟩, ⟨255, 0, 0⟩]⟩ ⟨1, 0⟩ Direction.NONE dir2 = none)
        ∧ (∀ dir1 dir2, dir2 ≠ Direction.NONE →
            dir1.val % 2 = dir2.val % 2 →
            getAdjacentPixel ⟨2, 2, [⟨255, 0, 0⟩, ⟨255, 0, 0⟩,
              ⟨255, 0, 0⟩, ⟨255, 0, 0⟩]⟩ ⟨1, 0⟩ dir1 dir2 = none)) := by
  refine ⟨by decide, by decide, by decide, ?_⟩
  exact getAdjacentPixel_safety _ ⟨1, 0⟩ (by decide) (by decide) (by decide)

/-! ### Claim C8: the union-find parent map -/

/-- Every entry of the parent map maps a child label to a strictly smaller
parent label. -/
def parentsDecreasing (m : List (Nat × Nat)) : Prop :=
  ∀ pr ∈ m, pr.2 < pr.1

theorem pass1Choose_parentsDecreasing (nextLabel : Nat)
    (parents : List (Nat × Nat)) (lcL lcU : Nat × Color)
    (h : parentsDecreasing parents) :
    parentsDecreasing (pass1Choose nextLabel parents lcL lcU).2 := by
  unfold pass1Choose
  dsimp only
  generalize (if lcL.2 ≠ BORDER_COLOR then lcL.1 else nextLabel) = label1
  split_ifs with h1 h2 h3
  · intro pr hpr
    rcases mem_mapInsert _ _ _ pr hpr with h4 | h4
    · rw [h4]
      exact min_lt_max.mpr h3
    · exact h pr h4
  all_goals exact h

theorem pass1Step_parentsDecreasing (img : Image) (s : Pass1State)
    (p : Point2D) (h : parentsDecreasing s.parents) :
    parentsDecreasing (pass1Step img s p).parents := by
  unfold pass1Step
  by_cases hc : getColorAt img p.x p.y = BORDER_COLOR
  · rw [if_pos hc]
    exact h
  · rw [if_neg hc]
    exact pass1Choose_parentsDecreasing _ _ _ _ h

theorem pass1_foldl_parentsDecreasing (img : Image) (pts : List Point2D) :
    ∀ s : Pass1State, parentsDecreasing s.parents →
      parentsDecreasing (pts.foldl (pass1Step img) s).parents := by
  induction pts with
  | nil => intro s hs; exact hs
  | cons p rest ih =>
    intro s hs
    exact ih _ (pass1Step_parentsDecreasing img s p hs)

theorem pass1After_parentsDecreasing (img : Image) (k : Nat) :
    parentsDecreasing (pass1After img k).parents := by
  unfold pass1After
  exact pass1_foldl_parentsDecreasing img _ _ (by intro pr hpr; cases hpr)

theorem alookup_decreasing {m : List (Nat × Nat)}
    (hdec : parentsDecreasing m) {a b : Nat} (h : alookup m a = some b) :
    b < a :=
  hdec _ (alookup_mem h)

theorem getRootLabelFuel_no_parent {m : List (Nat × Nat)} {l : Nat}
    (h : alookup m l = none) : ∀ fuel, getRootLabelFuel m fuel l = l := by
  intro fuel
  cases fuel with
  | zero => rfl
  | succ n =>
    unfold getRootLabelFuel
    rw [h]

theorem getRootLabelFuel_reaches_root {m : List (Nat × Nat)}
    (hdec : parentsDecreasing m) :
    ∀ fuel root, root ≤ fuel →
      alookup m (getRootLabelFuel m fuel root) = none := by
  intro fuel
  induction fuel with
  | zero =>
    intro root hr
    have hr0 : root = 0 := Nat.le_zero.mp hr
    subst hr0
    show alookup m 0 = none
    cases h0 : alookup m 0 with
    | none => rfl
    | some v => exact absurd (alookup_decreasing hdec h0) (by omega)
  | succ n ih =>
    intro root hr
    unfold getRootLabelFuel
    cases h0 : alookup m root with
    | none => exact h0
    | some q =>
      have hq : q < root := alookup_decreasing hdec h0
      exact ih q (by omega)

theorem transGen_parent_lt {m : List (Nat × Nat)}
    (hdec : parentsDecreasing m) {a b : Nat}
    (h : Relation.TransGen (fun u v => alookup m u = some v) a b) :
    b < a := by
  induction h with
  | single h1 => exact alookup_decreasing hdec h1
  | tail h1 h2 ih => exact Nat.lt_trans (alookup_decreasing hdec h2) ih

/-- C8: at every point during and after Pass 1 each parent entry maps a
label to a strictly smaller one, hence no label is reachable from itself
through the parent map, the root walk of `getRootLabel` reaches a label with
no parent entry, and a label with no parent entry resolves to itself. -/
theorem pass1_union_find_acyclic (img : Image) (k l : Nat) :
    parentsDecreasing (pass1After img k).parents
    ∧ ¬ Relation.TransGen
        (fun u v => alookup (pass1After img k).parents u = some v) l l
    ∧ alookup (pass1After img k).parents
        (getRootLabel (pass1After img k).parents l) = none
    ∧ (alookup (pass1After img k).parents l = none →
        getRootLabel (pass1After img k).parents l = l) := by
  have hdec := pass1After_parentsDecreasing img k
  refine ⟨hdec, ?_, ?_, ?_⟩
  · intro hloop
    exact absurd (transGen_parent_lt hdec hloop) (by omega)
  · exact getRootLabelFuel_reaches_root hdec l l (Nat.le_refl l)
  · intro hnone
    exact getRootLabelFuel_no_parent hnone l

/-! ### Claims C9 and C7: the validator -/

theorem errorCheckGo_count (img : Image) :
    ∀ (shapes : PolygonList) (idx pb : Nat),
      (errorCheckGo img idx pb shapes).2.2 =
        pb + shapes.countP (fun s => decide (s.pixels.length ≤ MIN_SHAPE_SIZE)) := by
  intro shapes
  induction shapes with
  | nil => intro idx pb; simp [errorCheckGo]
  | cons shape rest ih =>
    intro idx pb
    unfold errorCheckGo
    dsimp only
    rw [List.countP_cons]
    by_cases hsmall : shape.pixels.length ≤ MIN_SHAPE_SIZE
    · rw [if_pos hsmall, ih]
      simp [hsmall]
      omega
    · rw [if_neg hsmall, ih]
      simp [hsmall]

theorem errorCheckGo_mem (img : Image) :
    ∀ (shapes : PolygonList) (idx pb n t : Nat),
      ((n, t) ∈ (errorCheckGo img idx pb shapes).1 ↔
        ∃ j, j < shapes.length ∧ n = idx + j + 1 ∧
          (shapes.getD j default).pixels.length ≤ MIN_SHAPE_SIZE ∧
          t = (shapes.getD j default).pixels.length) := by
  intro shapes
  induction shapes with
  | nil =>
    intro idx pb n t
    simp [errorCheckGo]
  | cons shape rest ih =>
    intro idx pb n t
    unfold errorCheckGo
    dsimp only
    rw [List.mem_append]
    constructor
    · intro hmem
      rcases hmem with hmem | hmem
      · by_cases hsmall : shape.pixels.length ≤ MIN_SHAPE_SIZE
        · rw [if_pos hsmall, List.mem_singleton] at hmem
          injection hmem with hn ht
          exact ⟨0, by simp, by omega, by simpa using hsmall, by simpa using ht⟩
        · rw [if_neg hsmall] at hmem
          cases hmem
      · obtain ⟨j, hj, hn, hsmall, ht⟩ :=
          (ih (idx + 1) (if shape.pixels.length ≤ MIN_SHAPE_SIZE
            then pb + 1 else pb) n t).mp hmem
        exact ⟨j + 1, by simpa using hj, by omega, by simpa using hsmall,
               by simpa using ht⟩
    · rintro ⟨j, hj, hn, hsmall, ht⟩
      cases j with
      | zero =>
        left
        simp only [List.getD_cons_zero] at hsmall ht
        rw [if_pos hsmall, List.mem_singleton]
        rw [ht]
        have : n = idx + 1 := by omega
        rw [this]
      | succ j' =>
        right
        refine (ih (idx + 1) (if shape.pixels.length ≤ MIN_SHAPE_SIZE
            then pb + 1 else pb) n t).mpr ?_
        exact ⟨j', by simpa using hj, by omega, by simpa using hsmall,
               by simpa using ht⟩

theorem errorCheckGo_mem_large (img : Image) :
    ∀ (shapes : PolygonList) (idx pb n : Nat),
      (n ∈ (errorCheckGo img idx pb shapes).2.1 ↔
        ∃ j, j < shapes.length ∧ n = idx + j + 1 ∧
          isShapeTooLarge (calcShapeDims (shapes.getD j default)).1
            (calcShapeDims (shapes.getD j default)).2 img) := by
  intro shapes
  induction shapes with
  | nil =>
    intro idx pb n
    simp [errorCheckGo]
  | cons shape rest ih =>
    intro idx pb n
    unfold errorCheckGo
    dsimp only
    rw [List.mem_append]
    constructor
    · intro hmem
      rcases hmem with hmem | hmem
      · by_cases hlarge : isShapeTooLarge (calcShapeDims shape).1
            (calcShapeDims shape).2 img
        · rw [if_pos hlarge, List.mem_singleton] at hmem
          exact ⟨0, by simp, by omega, by simpa using hlarge⟩
        · rw [if_neg hlarge] at hmem
          cases hmem
      · obtain ⟨j, hj, hn, hlarge⟩ :=
          (ih (idx + 1) (if shape.pixels.length ≤ MIN_SHAPE_SIZE
            then pb + 1 else pb) n).mp hmem
        exact ⟨j + 1, by simpa using hj, by omega, by simpa using hlarge⟩
    · rintro ⟨j, hj, hn, hlarge⟩
      cases j with
      | zero =>
        left
        simp only [List.getD_cons_zero] at hlarge
        rw [if_pos hlarge, List.mem_singleton]
        omega
      | succ j' =>
        right
        refine (ih (idx + 1) (if shape.pixels.length ≤ MIN_SHAPE_SIZE
            then pb + 1 else pb) n).mpr ?_
        exact ⟨j', by simpa using hj, by omega, by simpa using hlarge⟩

/-- C9: `errorCheckAllShapes` returns `none` exactly when no shape has at
most `MIN_SHAPE_SIZE` (= 8) pixels, and otherwise returns the number of such
shapes; a shape whose bounding box exceeds one-eighth of an image dimension
triggers an oversized-bounding-box warning (carrying its 1-based index) —
and only such shapes do — but these warnings are never counted: the
returned value depends only on the pixel counts. -/
theorem errorCheckAllShapes_return (img : Image) (shapes : PolygonList) :
    ((errorCheckAllShapes img shapes).2.2 = none ↔
      ∀ shape ∈ shapes, ¬ shape.pixels.length ≤ 8)
    ∧ (∀ k, (errorCheckAllShapes img shapes).2.2 = some k →
        k = shapes.countP (fun s => decide (s.pixels.length ≤ 8)) ∧ 0 < k)
    ∧ (∀ i, i < shapes.length →
        ((i + 1) ∈ (errorCheckAllShapes img shapes).2.1 ↔
          isShapeTooLarge (calcShapeDims (shapes.getD i default)).1
            (calcShapeDims (shapes.getD i default)).2 img))
    ∧ (∀ n ∈ (errorCheckAllShapes img shapes).2.1,
        ∃ j, j < shapes.length ∧ n = j + 1 ∧
          isShapeTooLarge (calcShapeDims (shapes.getD j default)).1
            (calcShapeDims (shapes.getD j default)).2 img) := by
  have hms : MIN_SHAPE_SIZE = 8 := rfl
  have hcount := errorCheckGo_count img shapes 0 0
  rw [Nat.zero_add] at hcount
  unfold errorCheckAllShapes
  dsimp only
  rw [hms] at hcount
  refine ⟨?_, ?_, ?_, ?_⟩
  · constructor
    · intro hnone
      have hz : (errorCheckGo img 0 0 shapes).2.2 = 0 := by
        by_cases hz : (errorCheckGo img 0 0 shapes).2.2 = 0
        · exact hz
        · rw [if_neg hz] at hnone
          cases hnone
      rw [hcount] at hz
      intro s hs
      simpa using List.countP_eq_zero.mp hz s hs
    · intro hall
      have hz : shapes.countP (fun s => decide (s.pixels.length ≤ 8)) = 0 :=
        List.countP_eq_zero.mpr (by
          intro s hs
          simpa using hall s hs)
      rw [if_pos (by rw [hcount, hz])]
  · intro k hk
    by_cases hz : (errorCheckGo img 0 0 shapes).2.2 = 0
    · rw [if_pos hz] at hk
      cases hk
    · rw [if_neg hz] at hk
      injection hk with hk'
      subst hk'
      exact ⟨hcount, by omega⟩
  · intro i hi
    rw [errorCheckGo_mem_large img shapes 0 0 (i + 1)]
    constructor
    · rintro ⟨j, hj, hn, hlarge⟩
      have hji : j = i := by omega
      subst hji
      exact hlarge
    · intro hlarge
      exact ⟨i, hi, by omega, hlarge⟩
  · intro n hn
    obtain ⟨j, hj, hn', hlarge⟩ :=
      (errorCheckGo_mem_large img shapes 0 0 n).mp hn
    exact ⟨j, hj, by omega, hlarge⟩

/-- C7: in a successful run, the validator emits a minimum-size warning
`(index, size)` for exactly the shapes with at most 8 pixels, the warning
carries the shape's 1-based index and its pixel count, and validation is
advisory: the returned shape list is exactly what the three passes produced,
with or without warnings. -/
theorem findAllShapes_min_size_warnings (img : Image) (r : FindResult)
    (h : findAllShapes img = some r) (hf : r.fatal = false) :
    (∀ i, i < r.shapes.length →
      ((i + 1, (r.shapes.getD i default).pixels.length) ∈ r.minSizeWarnings
        ↔ (r.shapes.getD i default).pixels.length ≤ 8))
    ∧ (∀ pr ∈ r.minSizeWarnings, ∃ j, j < r.shapes.length ∧
        pr = (j + 1, (r.shapes.getD j default).pixels.length) ∧
        (r.shapes.getD j default).pixels.length ≤ 8)
    ∧ passesShapes img = some r.shapes := by
  have hms : MIN_SHAPE_SIZE = 8 := rfl
  unfold findAllShapes at h
  unfold passesShapes
  cases hmb : mergeBorders img (pass2 img (pass1 img).parents
      (pass1 img).matrix) with
  | error e =>
    rw [hmb] at h
    cases e with
    | allBorder =>
      dsimp only at h
      injection h with h'
      rw [← h'] at hf
      cases hf
    | missingLabel =>
      dsimp only at h
      cases h
  | ok pr =>
    obtain ⟨shapes, mat⟩ := pr
    rw [hmb] at h
    dsimp only at h
    injection h with h'
    subst h'
    dsimp only
    refine ⟨?_, ?_, rfl⟩
    · intro i hi
      constructor
      · intro hmem
        obtain ⟨j, hj, hn, hsmall, ht⟩ :=
          (errorCheckGo_mem img shapes 0 0 (i + 1)
            (shapes.getD i default).pixels.length).mp hmem
        have hij : j = i := by omega
        subst hij
        rw [hms] at hsmall
        exact hsmall
      · intro hsmall
        refine (errorCheckGo_mem img shapes 0 0 (i + 1)
          (shapes.getD i default).pixels.length).mpr ?_
        exact ⟨i, hi, by omega, by rw [hms]; exact hsmall, rfl⟩
    · intro pr hpr
      obtain ⟨n, t⟩ := pr
      obtain ⟨j, hj, hn, hsmall, ht⟩ :=
        (errorCheckGo_mem img shapes 0 0 n t).mp hpr
      rw [hms] at hsmall
      exact ⟨j, hj, by rw [hn, ht]; congr 1; omega, hsmall⟩

/-! ### Claim C5: the effect of Pass 1 -/

theorem xyToIndex_inj (img : Image) {a b : Point2D}
    (ha : a.x < img.width) (hb : b.x < img.width)
    (h : xyToIndex img a.x a.y = xyToIndex img b.x b.y) :
    a.x = b.x ∧ a.y = b.y := by
  have hw : 0 < img.width := by omega
  unfold xyToIndex at h
  have hax : (a.y * img.width + a.x) % img.width = a.x := by
    rw [Nat.add_comm, Nat.add_mul_mod_self_right, Nat.mod_eq_of_lt ha]
  have hbx : (b.y * img.width + b.x) % img.width = b.x := by
    rw [Nat.add_comm, Nat.add_mul_mod_self_right, Nat.mod_eq_of_lt hb]
  have hay : (a.y * img.width + a.x) / img.width = a.y := by
    rw [Nat.add_comm, Nat.add_mul_div_right _ _ hw, Nat.div_eq_of_lt ha,
        Nat.zero_add]
  have hby : (b.y * img.width + b.x) / img.width = b.y := by
    rw [Nat.add_comm, Nat.add_mul_div_right _ _ hw, Nat.div_eq_of_lt hb,
        Nat.zero_add]
  exact ⟨by rw [← hax, h, hbx], by rw [← hay, h, hby]⟩

theorem xyToIndex_ne (img : Image) {a b : Point2D}
    (ha : a.x < img.width) (hb : b.x < img.width) (hne : a ≠ b) :
    xyToIndex img a.x a.y ≠ xyToIndex img b.x b.y := by
  intro h
  obtain ⟨h1, h2⟩ := xyToIndex_inj img ha hb h
  apply hne
  cases a
  cases b
  simp only at h1 h2
  rw [h1, h2]

/-- The invariant maintained by Pass 1 over the processed raster prefix
`done`: labels start at 1, processed border pixels have matrix entry 0,
processed non-border pixels have an entry in `[1, next_label)`, the border
counter counts the processed border pixels, and the border-pixel buffer is
untouched (the source's Pass 1 never pushes to `m_border_pixels`). -/
def Pass1Inv (img : Image) (done : List Point2D) (s : Pass1State) : Prop :=
  1 ≤ s.nextLabel
  ∧ (∀ q ∈ done,
      (getColorAt img q.x q.y = BORDER_COLOR →
        s.matrix (xyToIndex img q.x q.y) = 0)
      ∧ (getColorAt img q.x q.y ≠ BORDER_COLOR →
        1 ≤ s.matrix (xyToIndex img q.x q.y)
        ∧ s.matrix (xyToIndex img q.x q.y) < s.nextLabel))
  ∧ s.numBorder
      = done.countP (fun q => decide (getColorAt img q.x q.y = BORDER_COLOR))
  ∧ s.borderPixels = []

theorem pass1Choose_label_bound (n : Nat) (ps : List (Nat × Nat))
    (lcL lcU : Nat × Color) (hn : 1 ≤ n)
    (hL : lcL.2 ≠ BORDER_COLOR → 1 ≤ lcL.1 ∧ lcL.1 < n)
    (hU : lcU.2 ≠ BORDER_COLOR → 1 ≤ lcU.1 ∧ lcU.1 < n) :
    1 ≤ (pass1Choose n ps lcL lcU).1 ∧ (pass1Choose n ps lcL lcU).1 ≤ n := by
  unfold pass1Choose
  dsimp only
  by_cases hLB : lcL.2 ≠ BORDER_COLOR
  · have hLb := hL hLB
    simp only [if_pos hLB]
    by_cases hUB : lcU.2 ≠ BORDER_COLOR
    · have hUb := hU hUB
      rw [if_pos hUB]
      by_cases h1 : lcL.1 ≠ n
      · rw [if_pos h1]
        by_cases h2 : lcL.1 ≠ lcU.1
        · rw [if_pos h2]
          dsimp only
          omega
        · rw [if_neg h2]
          exact ⟨hLb.1, by omega⟩
      · rw [if_neg h1]
        exact ⟨hUb.1, by omega⟩
    · rw [if_neg hUB]
      exact ⟨hLb.1, by omega⟩
  · simp only [if_neg hLB]
    by_cases hUB : lcU.2 ≠ BORDER_COLOR
    · have hUb := hU hUB
      rw [if_pos hUB, if_neg (by omega)]
      exact ⟨hUb.1, by omega⟩
    · rw [if_neg hUB]
      omega

theorem neighborLC_bound (img : Image) (hwf : img.WF)
    {done rest : List Point2D} {p : Point2D} (s : Pass1State)
    (hras : rasterPoints img = done ++ p :: rest)
    (hinv : Pass1Inv img done s) (dir : Direction)
    (hdir : dir = Direction.LEFT ∨ dir = Direction.UP) :
    (neighborLC img (updFn s.matrix (xyToIndex img p.x p.y) s.nextLabel) p
        dir (getColorAt img p.x p.y)).2 ≠ BORDER_COLOR →
      1 ≤ (neighborLC img (updFn s.matrix (xyToIndex img p.x p.y)
            s.nextLabel) p dir (getColorAt img p.x p.y)).1
      ∧ (neighborLC img (updFn s.matrix (xyToIndex img p.x p.y)
            s.nextLabel) p dir (getColorAt img p.x p.y)).1 < s.nextLabel := by
  obtain ⟨hpx, hpy, hpos, hbefore⟩ := raster_decomp hras
  have hw : 0 < img.width := by omega
  -- the adjacent point, when it exists, is the left or up raster predecessor
  have key : ∀ ql : Point2D,
      getAdjacentPixel img p dir = some ql →
      ql.x < img.width ∧ ql ∈ done ∧ ql ≠ p := by
    intro ql hql
    rcases hdir with hdir | hdir
    · subst hdir
      rw [getAdjacentPixel_left img p hwf.1 hpx] at hql
      by_cases hcond : 0 < p.x ∧ p.y < img.height ∧
          getColorAt img (p.x - 1) p.y ≠ BORDER_COLOR
      · rw [if_pos hcond] at hql
        injection hql with hql'
        subst hql'
        refine ⟨by dsimp only; omega, ?_, ?_⟩
        · apply hbefore
          · dsimp only; omega
          · dsimp only; omega
        · intro he
          have : p.x - 1 = p.x := congrArg Point2D.x he
          omega
      · rw [if_neg hcond] at hql
        cases hql
    · subst hdir
      rw [getAdjacentPixel_up img p hwf.2 hpy] at hql
      by_cases hcond : 0 < p.y ∧ p.x < img.width ∧
          getColorAt img p.x (p.y - 1) ≠ BORDER_COLOR
      · rw [if_pos hcond] at hql
        injection hql with hql'
        subst hql'
        refine ⟨by dsimp only; omega, ?_, ?_⟩
        · apply hbefore
          · dsimp only; omega
          · dsimp only
            have h1 : (p.y - 1) * img.width + img.width = p.y * img.width := by
              rw [← Nat.succ_mul, Nat.succ_eq_add_one, Nat.sub_add_cancel
                (by omega)]
            have h2 : (p.y - 1) * img.width + p.x
                < (p.y - 1) * img.width + img.width :=
              Nat.add_lt_add_left hpx _
            omega
        · intro he
          have : p.y - 1 = p.y := congrArg Point2D.y he
          omega
      · rw [if_neg hcond] at hql
        cases hql
  unfold neighborLC
  cases hadj : getAdjacentPixel img p dir with
  | none =>
    intro habs
    exact absurd rfl habs
  | some ql =>
    obtain ⟨hqlx, hql_done, hql_ne⟩ := key ql hadj
    unfold getLabelAndColor
    dsimp only
    by_cases hmis : getColorAt img ql.x ql.y ≠ BORDER_COLOR ∧
        getColorAt img ql.x ql.y ≠ getColorAt img p.x p.y
    · rw [if_pos hmis]
      intro habs
      exact absurd rfl habs
    · rw [if_neg hmis]
      intro hne
      dsimp only at hne
      have hne_idx : xyToIndex img ql.x ql.y ≠ xyToIndex img p.x p.y :=
        xyToIndex_ne img hqlx hpx hql_ne
      rw [updFn_ne _ _ _ _ hne_idx]
      exact (hinv.2.1 ql hql_done).2 hne

theorem pass1Step_inv (img : Image) (hwf : img.WF)
    {done rest : List Point2D} {p : Point2D} {s : Pass1State}
    (hras : rasterPoints img = done ++ p :: rest)
    (hinv : Pass1Inv img done s) :
    Pass1Inv img (done ++ [p]) (pass1Step img s p) := by
  obtain ⟨hpx, hpy, hpos, hbefore⟩ := raster_decomp hras
  have hnd : p ∉ done := by
    have h := rasterPoints_nodup img
    rw [hras] at h
    intro hmem
    have h2 := List.nodup_middle.mp h
    exact (List.nodup_cons.mp h2).1 (List.mem_append_left _ hmem)
  have hdone_ne : ∀ q ∈ done, xyToIndex img q.x q.y ≠ xyToIndex img p.x p.y := by
    intro q hq
    have hq_in : q ∈ rasterPoints img := by
      rw [hras]; exact List.mem_append_left _ hq
    have hqx := ((mem_rasterPoints img q).mp hq_in).1
    exact xyToIndex_ne img hqx hpx (fun he => hnd (he ▸ hq))
  obtain ⟨hn1, hmat, hcnt, hbuf⟩ := hinv
  by_cases hc : getColorAt img p.x p.y = BORDER_COLOR
  · rw [pass1Step_border img s p hc]
    refine ⟨hn1, ?_, ?_, hbuf⟩
    · intro q hq
      dsimp only
      rcases List.mem_append.mp hq with hq | hq
      · have hne := hdone_ne q hq
        constructor
        · intro hqb
          rw [updFn_ne _ _ _ _ hne, updFn_ne _ _ _ _ hne]
          exact (hmat q hq).1 hqb
        · intro hqnb
          rw [updFn_ne _ _ _ _ hne, updFn_ne _ _ _ _ hne]
          exact (hmat q hq).2 hqnb
      · rw [List.mem_singleton] at hq
        subst hq
        constructor
        · intro _
          exact updFn_self _ _ _
        · intro hqnb
          exact absurd hc hqnb
    · dsimp only
      rw [List.countP_append, hcnt]
      simp [hc]
  · rw [pass1Step_nonborder img s p hc]
    have hLbound := neighborLC_bound img hwf s hras
      ⟨hn1, hmat, hcnt, hbuf⟩ Direction.LEFT (Or.inl rfl)
    have hUbound := neighborLC_bound img hwf s hras
      ⟨hn1, hmat, hcnt, hbuf⟩ Direction.UP (Or.inr rfl)
    have hchoose := pass1Choose_label_bound s.nextLabel s.parents
      (neighborLC img (updFn s.matrix (xyToIndex img p.x p.y) s.nextLabel) p
        Direction.LEFT (getColorAt img p.x p.y))
      (neighborLC img (updFn s.matrix (xyToIndex img p.x p.y) s.nextLabel) p
        Direction.UP (getColorAt img p.x p.y)) hn1 hLbound hUbound
    set r := pass1Choose s.nextLabel s.parents
      (neighborLC img (updFn s.matrix (xyToIndex img p.x p.y) s.nextLabel) p
        Direction.LEFT (getColorAt img p.x p.y))
      (neighborLC img (updFn s.matrix (xyToIndex img p.x p.y) s.nextLabel) p
        Direction.UP (getColorAt img p.x p.y)) with hr
    refine ⟨?_, ?_, ?_, hbuf⟩
    · dsimp only
      split_ifs <;> omega
    · intro q hq
      dsimp only
      rcases List.mem_append.mp hq with hq | hq
      · have hne := hdone_ne q hq
        constructor
        · intro hqb
          rw [updFn_ne _ _ _ _ hne, updFn_ne _ _ _ _ hne]
          exact (hmat q hq).1 hqb
        · intro hqnb
          rw [updFn_ne _ _ _ _ hne, updFn_ne _ _ _ _ hne]
          obtain ⟨hge, hlt⟩ := (hmat q hq).2 hqnb
          refine ⟨hge, ?_⟩
          split_ifs <;> omega
      · rw [List.mem_singleton] at hq
        subst hq
        constructor
        · intro hqb
          exact absurd hqb hc
        · intro _
          rw [updFn_self]
          refine ⟨hchoose.1, ?_⟩
          split_ifs with heq <;> omega
    · dsimp only
      rw [List.countP_append, hcnt]
      simp [hc]

theorem pass1_fold_inv (img : Image) (hwf : img.WF) :
    ∀ (pts done : List Point2D) (s : Pass1State),
      rasterPoints img = done ++ pts →
      Pass1Inv img done s →
      Pass1Inv img (done ++ pts) (pts.foldl (pass1Step img) s) := by
  intro pts
  induction pts with
  | nil =>
    intro done s _ hinv
    simpa using hinv
  | cons p rest ih =>
    intro done s hras hinv
    have hstep := pass1Step_inv img hwf hras hinv
    have hras' : rasterPoints img = (done ++ [p]) ++ rest := by
      rw [hras, List.append_assoc]
      rfl
    have := ih (done ++ [p]) (pass1Step img s p) hras' hstep
    rw [List.append_assoc] at this
    simpa using this

/-- The Pass 1 invariant holds of the final Pass 1 state, over the whole
raster. -/
theorem pass1_inv (img : Image) (hwf : img.WF) :
    Pass1Inv img (rasterPoints img) (pass1 img) := by
  have h := pass1_fold_inv img hwf (rasterPoints img) []
    ⟨fun _ => 0, [], [], 1, 0⟩ rfl
    ⟨Nat.le_refl 1, fun q hq => absurd hq (List.not_mem_nil q), by simp, rfl⟩
  simpa using h

/-! ### Claim C1: counting pixels across shapes -/

/-- How many times a point occurs among the pixels of all shapes. -/
def cntPoint (shapes : PolygonList) (q : Point2D) : Nat :=
  ((shapes.map Polygon.pixels).flatten).countP (fun px => decide (px.point = q))

theorem cntPoint_nil (q : Point2D) : cntPoint [] q = 0 := rfl

theorem cntPoint_cons (s : Polygon) (t : PolygonList) (q : Point2D) :
    cntPoint (s :: t) q
      = s.pixels.countP (fun px => decide (px.point = q)) + cntPoint t q := by
  unfold cntPoint
  rw [List.map_cons, List.flatten_cons, List.countP_append]

theorem cntPoint_append_one (shapes : PolygonList) (s : Polygon)
    (q : Point2D) :
    cntPoint (shapes ++ [s]) q
      = cntPoint shapes q + s.pixels.countP (fun px => decide (px.point = q)) := by
  unfold cntPoint
  rw [List.map_append, List.flatten_append, List.countP_append]
  simp [List.countP_append]

theorem addPixelToShape_pixels (s : Polygon) (px : Pixel) :
    (addPixelToShape s px).pixels = s.pixels ++ [px] := by
  unfold addPixelToShape
  dsimp only
  split_ifs <;> rfl

theorem countP_singleton_point (px : Pixel) (q : Point2D) :
    List.countP (fun px' => decide (px'.point = q)) [px]
      = if px.point = q then 1 else 0 := by
  rw [List.countP_cons, List.countP_nil]
  by_cases h : px.point = q
  · simp [h]
  · simp [h]

theorem cntPoint_set (q : Point2D) :
    ∀ (shapes : PolygonList) (i : Nat) (s' : Polygon) (px : Pixel),
      i < shapes.length →
      s'.pixels = (shapes.getD i default).pixels ++ [px] →
      cntPoint (shapes.set i s') q
        = cntPoint shapes q + (if px.point = q then 1 else 0) := by
  intro shapes
  induction shapes with
  | nil =>
    intro i s' px hi _
    cases hi
  | cons hd tl ih =>
    intro i s' px hi hpix
    cases i with
    | zero =>
      rw [List.set_cons_zero, cntPoint_cons, cntPoint_cons]
      rw [List.getD_cons_zero] at hpix
      rw [hpix, List.countP_append, countP_singleton_point]
      omega
    | succ i' =>
      rw [List.set_cons_succ, cntPoint_cons, cntPoint_cons]
      rw [List.getD_cons_succ] at hpix
      rw [ih i' s' px (by simpa using hi) hpix]
      omega

/-- The effect of `buildShape` on pixel counts and on the
`label_to_shapeidx` range invariant. -/
theorem buildShape_spec (label : Nat) (color : Color) (shapes : PolygonList)
    (point : Point2D) (l2si : List (Nat × Nat))
    (hbound : ∀ pr ∈ l2si, pr.2 < shapes.length) :
    (∀ q, cntPoint (buildShape label color shapes point l2si).1 q
        = cntPoint shapes q + (if point = q then 1 else 0))
    ∧ (∀ pr ∈ (buildShape label color shapes point l2si).2,
        pr.2 < (buildShape label color shapes point l2si).1.length) := by
  unfold buildShape
  by_cases hfresh : alookup l2si label = none
  · simp only [if_pos hfresh]
    rw [alookup_mapInsert_self]
    dsimp only [Option.getD]
    have hgetD : (shapes ++ [(⟨[], color,
        generateUniqueColor (getProvinceType color), ⟨0, 0⟩, ⟨0, 0⟩⟩ :
        Polygon)]).getD shapes.length default
        = ⟨[], color, generateUniqueColor (getProvinceType color),
           ⟨0, 0⟩, ⟨0, 0⟩⟩ := by
      rw [List.getD_eq_getElem?_getD, List.getElem?_append_right (Nat.le_refl _)]
      simp
    rw [hgetD]
    constructor
    · intro q
      rw [cntPoint_set q _ shapes.length _ ⟨point, color⟩
          (by simp) (by rw [addPixelToShape_pixels, hgetD])]
      rw [cntPoint_append_one]
      simp
    · intro pr hpr
      rw [List.length_set, List.length_append]
      rcases mem_mapInsert _ _ _ pr hpr with h | h
      · rw [h]
        simp
      · have := hbound pr h
        simp
        omega
  · simp only [if_neg hfresh]
    cases halo : alookup l2si label with
    | none => exact absurd halo hfresh
    | some i =>
      have hi : i < shapes.length := hbound _ (alookup_mem halo)
      dsimp only [Option.getD]
      constructor
      · intro q
        exact cntPoint_set q shapes i _ ⟨point, color⟩ hi
          (addPixelToShape_pixels _ _)
      · intro pr hpr
        rw [List.length_set]
        exact hbound pr hpr

/-- The invariant maintained by Pass 2 over the processed raster prefix
`done`: every processed non-border point occurs in exactly one shape (and
unprocessed or border points in none), the border buffer holds exactly the
processed border pixels in order, and every `label_to_shapeidx` entry hits
an existing shape. -/
def Pass2Inv (img : Image) (done : List Point2D) (st : Pass2State) : Prop :=
  (∀ q : Point2D, cntPoint st.shapes q =
    if q ∈ done ∧ getColorAt img q.x q.y ≠ BORDER_COLOR then 1 else 0)
  ∧ st.borderPixels
      = (done.filter (fun q => decide (getColorAt img q.x q.y
          = BORDER_COLOR))).map (fun q => ⟨q, BORDER_COLOR⟩)
  ∧ (∀ pr ∈ st.l2si, pr.2 < st.shapes.length)

theorem pass2Step_inv (img : Image) (parents : List (Nat × Nat))
    {done : List Point2D} {p : Point2D} {st : Pass2State}
    (hp : p ∉ done) (hinv : Pass2Inv img done st) :
    Pass2Inv img (done ++ [p]) (pass2Step img parents st p) := by
  obtain ⟨hcnt, hbuf, hbound⟩ := hinv
  unfold pass2Step
  by_cases hc : getColorAt img p.x p.y = BORDER_COLOR
  · rw [if_pos hc]
    refine ⟨?_, ?_, hbound⟩
    · intro q
      dsimp only
      rw [hcnt q]
      by_cases hq : q = p
      · subst hq
        rw [if_neg (fun h => h.2 hc), if_neg (fun h => h.2 hc)]
      · by_cases hqd : q ∈ done ∧ getColorAt img q.x q.y ≠ BORDER_COLOR
        · rw [if_pos hqd, if_pos ⟨List.mem_append_left _ hqd.1, hqd.2⟩]
        · have hnot : ¬ (q ∈ done ++ [p] ∧
              getColorAt img q.x q.y ≠ BORDER_COLOR) := by
            intro h
            rcases List.mem_append.mp h.1 with h1 | h1
            · exact hqd ⟨h1, h.2⟩
            · exact hq (List.mem_singleton.mp h1)
          rw [if_neg hqd, if_neg hnot]
    · dsimp only
      rw [hbuf, List.filter_append, List.map_append]
      congr 1
      rw [List.filter_singleton]
      simp [hc]
  · rw [if_neg hc]
    have hbs := buildShape_spec
      (getRootLabel parents (st.matrix (xyToIndex img p.x p.y)))
      (getColorAt img p.x p.y) st.shapes p st.l2si hbound
    refine ⟨?_, ?_, ?_⟩
    · intro q
      dsimp only
      rw [hbs.1 q, hcnt q]
      by_cases hq : q = p
      · subst hq
        rw [if_neg (fun h => hp h.1), if_pos rfl,
            if_pos ⟨List.mem_append_right _ (by simp), hc⟩]
      · have hqp : ¬ p = q := fun h => hq h.symm
        rw [if_neg hqp]
        by_cases hqd : q ∈ done ∧ getColorAt img q.x q.y ≠ BORDER_COLOR
        · rw [if_pos hqd, if_pos ⟨List.mem_append_left _ hqd.1, hqd.2⟩]
        · have hnot : ¬ (q ∈ done ++ [p] ∧
              getColorAt img q.x q.y ≠ BORDER_COLOR) := by
            intro h
            rcases List.mem_append.mp h.1 with h1 | h1
            · exact hqd ⟨h1, h.2⟩
            · exact hq (List.mem_singleton.mp h1)
          rw [if_neg hqd, if_neg hnot]
    · dsimp only
      rw [hbuf, List.filter_append, List.map_append]
      have : List.filter (fun q => decide (getColorAt img q.x q.y
          = BORDER_COLOR)) [p] = [] := by
        rw [List.filter_singleton]
        simp [hc]
      rw [this]
      simp
    · dsimp only
      exact hbs.2

theorem pass2_fold_inv (img : Image) (parents : List (Nat × Nat)) :
    ∀ (pts done : List Point2D) (st : Pass2State),
      (done ++ pts).Nodup →
      Pass2Inv img done st →
      Pass2Inv img (done ++ pts) (pts.foldl (pass2Step img parents) st) := by
  intro pts
  induction pts with
  | nil =>
    intro done st _ hinv
    simpa using hinv
  | cons p rest ih =>
    intro done st hnd hinv
    have hp : p ∉ done := by
      intro hmem
      have h2 := List.nodup_middle.mp hnd
      exact (List.nodup_cons.mp h2).1 (List.mem_append_left _ hmem)
    have hstep := pass2Step_inv img parents hp hinv
    have hnd' : ((done ++ [p]) ++ rest).Nodup := by
      rw [List.append_assoc]
      simpa using hnd
    have := ih (done ++ [p]) (pass2Step img parents st p) hnd' hstep
    rw [List.append_assoc] at this
    simpa using this

/-- The Pass 2 invariant holds of the final Pass 2 state, over the whole
raster. -/
theorem pass2_inv (img : Image) (parents : List (Nat × Nat))
    (matrix : Nat → Nat) :
    Pass2Inv img (rasterPoints img) (pass2 img parents matrix) := by
  have h := pass2_fold_inv img parents (rasterPoints img) []
    ⟨matrix, [], [], []⟩ (by simpa using rasterPoints_nodup img)
    ⟨by intro q; simp [cntPoint_nil], by simp,
     by intro pr hpr; cases hpr⟩
  simpa using h

theorem mergeGo_ok_cnt (img : Image) (l2si : List (Nat × Nat)) :
    ∀ (bs : List Pixel) (shapes : PolygonList) (matrix : Nat → Nat)
      (out : PolygonList × (Nat → Nat)),
      mergeGo img l2si shapes matrix bs = Except.ok out →
      (∀ pr ∈ l2si, pr.2 < shapes.length) →
      (∀ q, cntPoint out.1 q
          = cntPoint shapes q + bs.countP (fun px => decide (px.point = q)))
      ∧ out.1.length = shapes.length := by
  intro bs
  induction bs with
  | nil =>
    intro shapes matrix out hok _
    unfold mergeGo at hok
    injection hok with hok'
    subst hok'
    constructor
    · intro q
      simp [List.countP_nil]
    · rfl
  | cons px rest ih =>
    intro shapes matrix out hok hbound
    unfold mergeGo at hok
    cases hstep : mergeStep img l2si shapes matrix px with
    | error e =>
      rw [hstep] at hok
      cases hok
    | ok pr =>
      rw [hstep] at hok
      obtain ⟨shapes', matrix'⟩ := pr
      dsimp only at hok
      -- characterize the successful step
      unfold mergeStep at hstep
      cases htgt : mergeTarget img px.point with
      | none =>
        rw [htgt] at hstep
        cases hstep
      | some mw =>
        rw [htgt] at hstep
        dsimp only at hstep
        cases halo : alookup l2si (matrix (xyToIndex img mw.x mw.y)) with
        | none =>
          rw [halo] at hstep
          cases hstep
        | some si =>
          rw [halo] at hstep
          injection hstep with hstep'
          have hsi : si < shapes.length := hbound _ (alookup_mem halo)
          have hshapes' : shapes'
              = shapes.set si (addPixelToShape (shapes.getD si default) px) := by
            have := congrArg Prod.fst hstep'
            exact this.symm
          have hbound' : ∀ pr ∈ l2si, pr.2 < shapes'.length := by
            intro pr hpr
            rw [hshapes', List.length_set]
            exact hbound pr hpr
          obtain ⟨hcnt', hlen'⟩ := ih shapes' matrix' out hok hbound'
          have hcnt_step : ∀ q, cntPoint shapes' q
              = cntPoint shapes q + (if px.point = q then 1 else 0) := by
            intro q
            rw [hshapes']
            exact cntPoint_set q shapes si _ px hsi (addPixelToShape_pixels _ _)
          constructor
          · intro q
            rw [hcnt' q, hcnt_step q, List.countP_cons]
            by_cases hpq : px.point = q
            · simp [hpq]
              omega
            · simp [hpq]
          · rw [hlen', hshapes', List.length_set]

theorem cntPoint_pos_of_mem {shapes : PolygonList} {s : Polygon} {px : Pixel}
    (hs : s ∈ shapes) (hpx : px ∈ s.pixels) :
    0 < cntPoint shapes px.point := by
  apply List.countP_pos_iff.mpr
  refine ⟨px, ?_, by simp⟩
  apply List.mem_flatten.mpr
  exact ⟨s.pixels, List.mem_map.mpr ⟨s, hs, rfl⟩, hpx⟩

theorem pairwise_disjoint_of_cnt_le_one :
    ∀ shapes : PolygonList, (∀ q, cntPoint shapes q ≤ 1) →
      List.Pairwise (fun s t => ∀ p1 ∈ s.pixels, ∀ p2 ∈ t.pixels,
        p1.point ≠ p2.point) shapes := by
  intro shapes
  induction shapes with
  | nil =>
    intro _
    exact List.Pairwise.nil
  | cons s t ih =>
    intro hle
    refine List.Pairwise.cons ?_ (ih ?_)
    · intro t' ht' p1 hp1 p2 hp2 heq
      have h1 : 1 ≤ s.pixels.countP (fun px => decide (px.point = p1.point)) :=
        List.countP_pos_iff.mpr ⟨p1, hp1, by simp⟩
      have h2 : 0 < cntPoint t p2.point := cntPoint_pos_of_mem ht' hp2
      have h3 := hle p1.point
      rw [cntPoint_cons] at h3
      rw [← heq] at h2
      omega
    · intro q
      have h := hle q
      rw [cntPoint_cons] at h
      omega

/-- C1: after a run of `findAllShapes` that does not hit the fatal
all-border condition, every in-image point occurs in exactly one shape's
pixel list (and out-of-image points in none), so the union of the shapes'
pixels is the image pixel set and distinct shapes are pairwise disjoint.
Moreover the split between the passes is as described: after Pass 2 every
non-border in-image point is in exactly one shape and border points are in
none; `mergeBorders` then adds each border pixel to exactly one shape. -/
theorem findAllShapes_partition (img : Image) (r : FindResult)
    (h : findAllShapes img = some r) (hf : r.fatal = false) :
    (∀ q : Point2D, cntPoint r.shapes q
        = if q.x < img.width ∧ q.y < img.height then 1 else 0)
    ∧ List.Pairwise (fun s t => ∀ p1 ∈ s.pixels, ∀ p2 ∈ t.pixels,
        p1.point ≠ p2.point) r.shapes
    ∧ (∀ q : Point2D, getColorAt img q.x q.y ≠ BORDER_COLOR →
        cntPoint (pass2 img (pass1 img).parents (pass1 img).matrix).shapes q
          = if q.x < img.width ∧ q.y < img.height then 1 else 0)
    ∧ (∀ q : Point2D, getColorAt img q.x q.y = BORDER_COLOR →
        cntPoint (pass2 img (pass1 img).parents (pass1 img).matrix).shapes q
          = 0) := by
  obtain ⟨hcnt2, hbuf2, hbound2⟩ :=
    pass2_inv img (pass1 img).parents (pass1 img).matrix
  -- the count contributed by the border buffer
  have hbufcnt : ∀ q : Point2D,
      (pass2 img (pass1 img).parents (pass1 img).matrix).borderPixels.countP
        (fun px => decide (px.point = q))
      = if q ∈ rasterPoints img ∧ getColorAt img q.x q.y = BORDER_COLOR
        then 1 else 0 := by
    intro q
    rw [hbuf2, List.countP_map]
    have hpred : ((fun px : Pixel => decide (px.point = q)) ∘
        (fun q' : Point2D => (⟨q', BORDER_COLOR⟩ : Pixel)))
        = fun q' : Point2D => decide (q' = q) := by
      funext q'
      simp [Function.comp]
    rw [hpred]
    have hnd : ((rasterPoints img).filter
        (fun q' => decide (getColorAt img q'.x q'.y = BORDER_COLOR))).Nodup :=
      (rasterPoints_nodup img).filter _
    by_cases hq : q ∈ (rasterPoints img).filter
        (fun q' => decide (getColorAt img q'.x q'.y = BORDER_COLOR))
    · have hmem := List.mem_filter.mp hq
      rw [if_pos ⟨hmem.1, by simpa using hmem.2⟩]
      calc List.countP (fun q' => decide (q' = q)) _
          = List.count q _ := by
            apply List.countP_congr
            intro q' _
            rfl
        _ = 1 := List.count_eq_one_of_mem hnd hq
    · have hcond : ¬ (q ∈ rasterPoints img ∧
          getColorAt img q.x q.y = BORDER_COLOR) := by
        intro hcond
        exact hq (List.mem_filter.mpr ⟨hcond.1, by simpa using hcond.2⟩)
      rw [if_neg hcond]
      calc List.countP (fun q' => decide (q' = q)) _
          = List.count q _ := by
            apply List.countP_congr
            intro q' _
            rfl
        _ = 0 := List.count_eq_zero_of_not_mem hq
  unfold findAllShapes at h
  cases hmb : mergeBorders img
      (pass2 img (pass1 img).parents (pass1 img).matrix) with
  | error e =>
    rw [hmb] at h
    cases e with
    | allBorder =>
      dsimp only at h
      injection h with h'
      rw [← h'] at hf
      cases hf
    | missingLabel =>
      dsimp only at h
      cases h
  | ok pr =>
    obtain ⟨shapes, mat⟩ := pr
    rw [hmb] at h
    dsimp only at h
    injection h with h'
    subst h'
    dsimp only
    unfold mergeBorders at hmb
    obtain ⟨hcnt3, _⟩ := mergeGo_ok_cnt img
      (pass2 img (pass1 img).parents (pass1 img).matrix).l2si
      (pass2 img (pass1 img).parents (pass1 img).matrix).borderPixels
      (pass2 img (pass1 img).parents (pass1 img).matrix).shapes
      (pass2 img (pass1 img).parents (pass1 img).matrix).matrix
      (shapes, mat) hmb hbound2
    have hfinal : ∀ q : Point2D, cntPoint shapes q
        = if q.x < img.width ∧ q.y < img.height then 1 else 0 := by
      intro q
      have h3 := hcnt3 q
      dsimp only at h3
      rw [hcnt2 q, hbufcnt q] at h3
      rw [h3]
      by_cases hin : q ∈ rasterPoints img
      · have hin' := (mem_rasterPoints img q).mp hin
        rw [if_pos hin']
        by_cases hb : getColorAt img q.x q.y = BORDER_COLOR
        · rw [if_neg (fun hh => hh.2 hb), if_pos ⟨hin, hb⟩]
        · rw [if_pos ⟨hin, hb⟩, if_neg (fun hh => hb hh.2)]
      · have hin' := fun hcond => hin ((mem_rasterPoints img q).mpr hcond)
        rw [if_neg hin', if_neg (fun hh => hin hh.1),
            if_neg (fun hh => hin hh.1)]
    refine ⟨hfinal, ?_, ?_, ?_⟩
    · apply pairwise_disjoint_of_cnt_le_one
      intro q
      rw [hfinal q]
      split_ifs <;> omega
    · intro q hnb
      rw [hcnt2 q]
      by_cases hin : q ∈ rasterPoints img
      · have hin' := (mem_rasterPoints img q).mp hin
        rw [if_pos ⟨hin, hnb⟩, if_pos hin']
      · have hin' := fun hcond => hin ((mem_rasterPoints img q).mpr hcond)
        rw [if_neg (fun hh => hin hh.1), if_neg hin']
    · intro q hb
      rw [hcnt2 q]
      rw [if_neg (fun hh => hh.2 hb)]

/-! ### Claims C6 and C4: the border absorber -/

theorem mem_quadPoints (img : Image) (x y : Nat) (q : Point2D) :
    q ∈ quadPoints img x y ↔
      x ≤ q.x ∧ q.x < img.width ∧ y ≤ q.y ∧ q.y < img.height := by
  unfold quadPoints
  simp only [List.mem_flatMap, List.mem_map]
  constructor
  · rintro ⟨y2, hy2, x2, hx2, rfl⟩
    have h1 := List.mem_range'_1.mp hy2
    have h2 := List.mem_range'_1.mp hx2
    dsimp only
    omega
  · intro ⟨h1, h2, h3, h4⟩
    refine ⟨q.y, List.mem_range'_1.mpr (by omega), q.x,
            List.mem_range'_1.mpr (by omega), ?_⟩
    cases q
    rfl

theorem findNonBorderQuad_none (img : Image) (x y : Nat)
    (hall : ∀ q : Point2D, q.x < img.width → q.y < img.height →
      getColorAt img q.x q.y = BORDER_COLOR) :
    findNonBorderQuad img x y = none := by
  unfold findNonBorderQuad
  apply List.find?_eq_none.mpr
  intro q hq
  have hm := (mem_quadPoints img x y q).mp hq
  simp [hall q hm.2.1 hm.2.2.2]

theorem findNonBorderQuad_some (img : Image) (x y : Nat) (q : Point2D)
    (h : findNonBorderQuad img x y = some q) :
    getColorAt img q.x q.y ≠ BORDER_COLOR ∧ q ∈ quadPoints img x y := by
  unfold findNonBorderQuad at h
  refine ⟨by simpa using List.find?_some h, List.mem_of_find?_eq_some h⟩

/-- The merge target of a border pixel at `(0,0)` in an all-border image is
not found. -/
theorem mergeTarget_origin_none (img : Image) (hwf : img.WF)
    (hw : 0 < img.width) (hh : 0 < img.height)
    (hall : ∀ q : Point2D, q.x < img.width → q.y < img.height →
      getColorAt img q.x q.y = BORDER_COLOR) :
    mergeTarget img ⟨0, 0⟩ = none := by
  unfold mergeTarget
  rw [getAdjacentPixel_left img ⟨0, 0⟩ hwf.1 hw,
      if_neg (fun hcond => Nat.lt_irrefl 0 hcond.1)]
  rw [getAdjacentPixel_up img ⟨0, 0⟩ hwf.2 hh,
      if_neg (fun hcond => Nat.lt_irrefl 0 hcond.1)]
  exact findNonBorderQuad_none img 0 0 hall

/-- C6: on a non-empty image consisting entirely of border-colored pixels,
`findAllShapes` reports the fatal condition and returns the empty shape
list, with no validator warnings (the validator is skipped). -/
theorem findAllShapes_all_border (img : Image) (hwf : img.WF)
    (hw : 0 < img.width) (hh : 0 < img.height)
    (hall : ∀ q : Point2D, q.x < img.width → q.y < img.height →
      getColorAt img q.x q.y = BORDER_COLOR) :
    findAllShapes img = some ⟨[], true, [], []⟩ := by
  obtain ⟨hcnt2, hbuf2, hbound2⟩ :=
    pass2_inv img (pass1 img).parents (pass1 img).matrix
  have hN : ∃ N', img.height * img.width = N' + 1 := by
    have hpos : 0 < img.height * img.width := Nat.mul_pos hh hw
    exact ⟨img.height * img.width - 1, by omega⟩
  obtain ⟨N', hN⟩ := hN
  have hraster : ∃ tail, rasterPoints img = (⟨0, 0⟩ : Point2D) :: tail := by
    rw [rasterPoints_eq_map, hN, List.range_succ_eq_map]
    refine ⟨(List.map (ofIndex img.width) (List.map Nat.succ (List.range N'))),
            ?_⟩
    rw [List.map_cons]
    congr 1
    unfold ofIndex
    rw [Nat.zero_mod, Nat.zero_div]
  obtain ⟨tail, hraster⟩ := hraster
  have hfilter : (rasterPoints img).filter
      (fun q => decide (getColorAt img q.x q.y = BORDER_COLOR))
      = rasterPoints img := by
    apply List.filter_eq_self.mpr
    intro q hq
    obtain ⟨hx, hy⟩ := (mem_rasterPoints img q).mp hq
    simpa using hall q hx hy
  have hbufcons : ∃ btail,
      (pass2 img (pass1 img).parents (pass1 img).matrix).borderPixels
        = (⟨⟨0, 0⟩, BORDER_COLOR⟩ : Pixel) :: btail := by
    rw [hbuf2, hfilter, hraster, List.map_cons]
    exact ⟨_, rfl⟩
  obtain ⟨btail, hbufcons⟩ := hbufcons
  have hmerge : mergeBorders img
      (pass2 img (pass1 img).parents (pass1 img).matrix)
      = Except.error MergeErr.allBorder := by
    unfold mergeBorders
    rw [hbufcons]
    unfold mergeGo
    have hstep : mergeStep img
        (pass2 img (pass1 img).parents (pass1 img).matrix).l2si
        (pass2 img (pass1 img).parents (pass1 img).matrix).shapes
        (pass2 img (pass1 img).parents (pass1 img).matrix).matrix
        ⟨⟨0, 0⟩, BORDER_COLOR⟩ = Except.error MergeErr.allBorder := by
      unfold mergeStep
      rw [show (⟨⟨0, 0⟩, BORDER_COLOR⟩ : Pixel).point = ⟨0, 0⟩ from rfl,
          mergeTarget_origin_none img hwf hw hh hall]
    rw [hstep]
  unfold findAllShapes
  rw [hmerge]

/-! ### Claims C2, C3, C4, C5: amended statements and counterexamples on
concrete images -/

def redColor : Color := ⟨255, 0, 0⟩

def greenColor : Color := ⟨0, 255, 0⟩

/-- 2×2 image, left column red, right column green, no border pixels. -/
def imgTwoColumns : Image :=
  ⟨2, 2, [redColor, greenColor, redColor, greenColor]⟩

/-- 6×3 image engineering two successive merges of label 3: first with
label 2 (at pixel (4,1)), then with label 1 (at pixel (3,2)). -/
def imgOverwrite : Image :=
  ⟨6, 3, [redColor, BORDER_COLOR, BORDER_COLOR, BORDER_COLOR, redColor,
          BORDER_COLOR,
          redColor, BORDER_COLOR, BORDER_COLOR, redColor, redColor,
          BORDER_COLOR,
          redColor, redColor, redColor, redColor, BORDER_COLOR,
          BORDER_COLOR]⟩

/-- 3×2 image: top row all border, bottom row red green green.  The border
pixel (1,0) has no left/up neighbor; a raster-order forward scan from it
would reach the red pixel (0,1), but the source's quadrant scan (columns ≥ 1
only) reaches the green pixel (1,1) first. -/
def imgQuadrant : Image :=
  ⟨3, 2, [BORDER_COLOR, BORDER_COLOR, BORDER_COLOR,
          redColor, greenColor, greenColor]⟩

/-- 1×1 image consisting of a single border-colored pixel. -/
def imgAllBorder : Image := ⟨1, 1, [BORDER_COLOR]⟩

/-- 1×1 image consisting of a single red pixel. -/
def imgSinglePixel : Image := ⟨1, 1, [redColor]⟩

/-- The result of `findAllShapes` on `imgSinglePixel`. -/
def resSinglePixel : FindResult :=
  ⟨[⟨[⟨⟨0, 0⟩, redColor⟩], redColor, ⟨255, 255, 255⟩, ⟨0, 0⟩, ⟨0, 0⟩⟩],
   false, [(1, 1)], [1]⟩

/-- C2: the bounding box of a shape away from the origin is not tight.  On
`imgTwoColumns`, the green shape consists of the pixels of column 1 only,
yet its `bottom_left` stays at the `(0,0)` initialization sentinel, so
`bottom_left.x = 0` differs from the minimum pixel x-coordinate 1. -/
theorem bounding_box_not_tight :
    (findAllShapes imgTwoColumns).isSome = true
    ∧ (((findAllShapes imgTwoColumns).getD default).shapes.getD 1
        default).pixels.length = 2
    ∧ (∀ px ∈ (((findAllShapes imgTwoColumns).getD default).shapes.getD 1
        default).pixels, px.point.x = 1)
    ∧ (((findAllShapes imgTwoColumns).getD default).shapes.getD 1
        default).bottom_left = ⟨0, 0⟩ := by
  decide

/-- C3 counterexample: on `imgOverwrite`, after the first 11 raster pixels
of Pass 1 the parent map holds `parent[3] = 2`; processing the 16th pixel
re-merges label 3 with label 1 and the existing entry is overwritten to
`parent[3] = 1`, so the merge is neither skipped nor the entry left
unchanged. -/
theorem pass1_parent_overwrite_counterexample :
    (pass1After imgOverwrite 11).parents = [(3, 2)]
    ∧ (pass1After imgOverwrite 16).parents = [(3, 1)]
    ∧ alookup (pass1After imgOverwrite 11).parents 3 = some 2
    ∧ alookup (pass1After imgOverwrite 16).parents 3 = some 1 := by
  decide

theorem pass1Choose_merge (n : Nat) (ps : List (Nat × Nat))
    (lcL lcU : Nat × Color)
    (hL : lcL.2 ≠ BORDER_COLOR) (hU : lcU.2 ≠ BORDER_COLOR)
    (h1 : lcL.1 ≠ n) (h2 : lcL.1 ≠ lcU.1) :
    pass1Choose n ps lcL lcU
      = (min lcL.1 lcU.1,
         mapInsert ps (max lcL.1 lcU.1) (min lcL.1 lcU.1)) := by
  unfold pass1Choose
  dsimp only
  simp only [if_pos hL]
  rw [if_pos hU, if_pos h1, if_pos h2]

/-- C3 (amended): when the current pixel's left and up neighbors both match
its color but carry different labels A and B (with A the already-chosen
left label), the pixel is assigned `min(A,B)` and
`parent[max(A,B)] = min(A,B)` is recorded unconditionally: an existing
parent entry of `max(A,B)` is overwritten, and afterwards the lookup of
`max(A,B)` yields `min(A,B)` regardless of what it held before. -/
theorem pass1_merge_overwrites (img : Image) (s : Pass1State) (p : Point2D)
    (hc : getColorAt img p.x p.y ≠ BORDER_COLOR)
    (hL : (neighborLC img (updFn s.matrix (xyToIndex img p.x p.y)
        s.nextLabel) p Direction.LEFT (getColorAt img p.x p.y)).2
        ≠ BORDER_COLOR)
    (hU : (neighborLC img (updFn s.matrix (xyToIndex img p.x p.y)
        s.nextLabel) p Direction.UP (getColorAt img p.x p.y)).2
        ≠ BORDER_COLOR)
    (h1 : (neighborLC img (updFn s.matrix (xyToIndex img p.x p.y)
        s.nextLabel) p Direction.LEFT (getColorAt img p.x p.y)).1
        ≠ s.nextLabel)
    (h2 : (neighborLC img (updFn s.matrix (xyToIndex img p.x p.y)
        s.nextLabel) p Direction.LEFT (getColorAt img p.x p.y)).1
        ≠ (neighborLC img (updFn s.matrix (xyToIndex img p.x p.y)
        s.nextLabel) p Direction.UP (getColorAt img p.x p.y)).1) :
    (pass1Step img s p).parents
      = mapInsert s.parents
          (max (neighborLC img (updFn s.matrix (xyToIndex img p.x p.y)
            s.nextLabel) p Direction.LEFT (getColorAt img p.x p.y)).1
            (neighborLC img (updFn s.matrix (xyToIndex img p.x p.y)
            s.nextLabel) p Direction.UP (getColorAt img p.x p.y)).1)
          (min (neighborLC img (updFn s.matrix (xyToIndex img p.x p.y)
            s.nextLabel) p Direction.LEFT (getColorAt img p.x p.y)).1
            (neighborLC img (updFn s.matrix (xyToIndex img p.x p.y)
            s.nextLabel) p Direction.UP (getColorAt img p.x p.y)).1)
    ∧ (pass1Step img s p).matrix (xyToIndex img p.x p.y)
      = min (neighborLC img (updFn s.matrix (xyToIndex img p.x p.y)
          s.nextLabel) p Direction.LEFT (getColorAt img p.x p.y)).1
          (neighborLC img (updFn s.matrix (xyToIndex img p.x p.y)
          s.nextLabel) p Direction.UP (getColorAt img p.x p.y)).1
    ∧ alookup (pass1Step img s p).parents
        (max (neighborLC img (updFn s.matrix (xyToIndex img p.x p.y)
          s.nextLabel) p Direction.LEFT (getColorAt img p.x p.y)).1
          (neighborLC img (updFn s.matrix (xyToIndex img p.x p.y)
          s.nextLabel) p Direction.UP (getColorAt img p.x p.y)).1)
      = some (min (neighborLC img (updFn s.matrix (xyToIndex img p.x p.y)
          s.nextLabel) p Direction.LEFT (getColorAt img p.x p.y)).1
          (neighborLC img (updFn s.matrix (xyToIndex img p.x p.y)
          s.nextLabel) p Direction.UP (getColorAt img p.x p.y)).1) := by
  rw [pass1Step_nonborder img s p hc]
  dsimp only
  rw [pass1Choose_merge s.nextLabel s.parents _ _ hL hU h1 h2]
  refine ⟨rfl, ?_, ?_⟩
  · rw [updFn_self]
  · exact alookup_mapInsert_self _ _ _

/-- Witness for `pass1_merge_overwrites`: the state of Pass 1 on
`imgOverwrite` just before pixel (3,2), whose left neighbor has label 1 and
up neighbor the label 3 that already has parent 2. -/
theorem pass1_merge_overwrites_witness :
    (getColorAt imgOverwrite 3 2 ≠ BORDER_COLOR)
    ∧ alookup (pass1After imgOverwrite 15).parents 3 = some 2
    ∧ alookup (pass1Step imgOverwrite (pass1After imgOverwrite 15)
        ⟨3, 2⟩).parents 3 = some 1 := by
  refine ⟨by decide, by decide, ?_⟩
  have h := pass1_merge_overwrites imgOverwrite
    (pass1After imgOverwrite 15) ⟨3, 2⟩
    (by decide) (by decide) (by decide) (by decide) (by decide)
  convert h.2.2 using 2

/-- C4 (amended): Pass 3 chooses the merge target of a border pixel at
`(x,y)` in strict order — the left neighbor `(x-1,y)` when inside the image
and non-border, else the up neighbor `(x,y-1)` likewise, else the first
non-border pixel of the lower-right sub-rectangle (rows `y..height-1`,
columns `x..width-1` in each such row, row-major) — and the chosen shape
receives the border pixel via `addPixelToShape` while the pixel's label
matrix entry is overwritten with the target's label. -/
theorem mergeBorders_adoption (img : Image) (hwf : img.WF) (x y : Nat)
    (hx : x < img.width) (hy : y < img.height) :
    (0 < x → getColorAt img (x - 1) y ≠ BORDER_COLOR →
      mergeTarget img ⟨x, y⟩ = some ⟨x - 1, y⟩)
    ∧ ((x = 0 ∨ getColorAt img (x - 1) y = BORDER_COLOR) →
        0 < y → getColorAt img x (y - 1) ≠ BORDER_COLOR →
        mergeTarget img ⟨x, y⟩ = some ⟨x, y - 1⟩)
    ∧ ((x = 0 ∨ getColorAt img (x - 1) y = BORDER_COLOR) →
        (y = 0 ∨ getColorAt img x (y - 1) = BORDER_COLOR) →
        mergeTarget img ⟨x, y⟩ = findNonBorderQuad img x y)
    ∧ (∀ q : Point2D, q ∈ quadPoints img x y ↔
        x ≤ q.x ∧ q.x < img.width ∧ y ≤ q.y ∧ q.y < img.height)
    ∧ (∀ q, findNonBorderQuad img x y = some q →
        getColorAt img q.x q.y ≠ BORDER_COLOR ∧ q ∈ quadPoints img x y)
    ∧ (∀ (c : Color) (l2si : List (Nat × Nat)) (shapes : PolygonList)
        (matrix : Nat → Nat) (mw : Point2D) (si : Nat),
        mergeTarget img ⟨x, y⟩ = some mw →
        alookup l2si (matrix (xyToIndex img mw.x mw.y)) = some si →
        mergeStep img l2si shapes matrix ⟨⟨x, y⟩, c⟩ =
          Except.ok (shapes.set si (addPixelToShape (shapes.getD si default)
              ⟨⟨x, y⟩, c⟩),
            updFn matrix (xyToIndex img x y)
              (matrix (xyToIndex img mw.x mw.y)))) := by
  refine ⟨?_, ?_, ?_, mem_quadPoints img x y, findNonBorderQuad_some img x y,
          ?_⟩
  · intro hx0 hcol
    unfold mergeTarget
    rw [getAdjacentPixel_left img ⟨x, y⟩ hwf.1 hx,
        if_pos ⟨hx0, hy, hcol⟩]
  · intro hleft hy0 hcol
    unfold mergeTarget
    rw [getAdjacentPixel_left img ⟨x, y⟩ hwf.1 hx,
        if_neg (fun hc => by
          rcases hleft with h | h
          · have h1 : 0 < x := hc.1
            omega
          · exact hc.2.2 h)]
    rw [getAdjacentPixel_up img ⟨x, y⟩ hwf.2 hy,
        if_pos ⟨hy0, hx, hcol⟩]
  · intro hleft hup
    unfold mergeTarget
    rw [getAdjacentPixel_left img ⟨x, y⟩ hwf.1 hx,
        if_neg (fun hc => by
          rcases hleft with h | h
          · have h1 : 0 < x := hc.1
            omega
          · exact hc.2.2 h)]
    rw [getAdjacentPixel_up img ⟨x, y⟩ hwf.2 hy,
        if_neg (fun hc => by
          rcases hup with h | h
          · have h1 : 0 < y := hc.1
            omega
          · exact hc.2.2 h)]
  · intro c l2si shapes matrix mw si htgt halo
    unfold mergeStep
    rw [show (⟨⟨x, y⟩, c⟩ : Pixel).point = ⟨x, y⟩ from rfl, htgt]
    dsimp only
    rw [halo]

/-- C4 counterexample: on `imgQuadrant` the first non-border pixel in
raster order after the border pixel (1,0) is the red pixel (0,1), whose
shape is shape 0 — yet the code merges (1,0) into the green shape 1,
because its fallback scan only visits columns ≥ 1. -/
theorem mergeBorders_raster_counterexample :
    ((rasterPoints imgQuadrant).drop 2).find?
        (fun q => decide (getColorAt imgQuadrant q.x q.y ≠ BORDER_COLOR))
      = some ⟨0, 1⟩
    ∧ (findAllShapes imgQuadrant).isSome = true
    ∧ (⟨⟨0, 1⟩, redColor⟩ : Pixel) ∈
        (((findAllShapes imgQuadrant).getD default).shapes.getD 0
          default).pixels
    ∧ (⟨⟨1, 0⟩, BORDER_COLOR⟩ : Pixel) ∈
        (((findAllShapes imgQuadrant).getD default).shapes.getD 1
          default).pixels
    ∧ (∀ px ∈ (((findAllShapes imgQuadrant).getD default).shapes.getD 0
        default).pixels, px.point ≠ ⟨1, 0⟩) := by
  decide

/-- Witness for `mergeBorders_adoption` at the border pixel (1,0) of
`imgQuadrant`: no left/up target exists, so the target is the quadrant
scan's result (1,1), not the raster-order pixel (0,1). -/
theorem mergeBorders_adoption_witness :
    Image.WF imgQuadrant ∧ (1 : Nat) < 3 ∧ (0 : Nat) < 2
    ∧ mergeTarget imgQuadrant ⟨1, 0⟩ = findNonBorderQuad imgQuadrant 1 0
    ∧ findNonBorderQuad imgQuadrant 1 0 = some ⟨1, 1⟩ := by
  refine ⟨by decide, by decide, by decide, ?_, by decide⟩
  have h := mergeBorders_adoption imgQuadrant (by decide) 1 0
    (by decide) (by decide)
  exact h.2.2.1 (Or.inr (by decide)) (Or.inl rfl)

/-- C5 (amended): after Pass 1 every non-border pixel's label matrix entry
is ≥ 1, every border pixel's entry is 0, and the return value
(`num_border_pixels`) is the number of border-colored pixels — but the
border-pixel buffer is still empty when Pass 1 returns: the border pixels
are appended to it during Pass 2, which produces exactly the border pixels
in raster order. -/
theorem pass1_effects (img : Image) (hwf : img.WF) :
    (∀ q : Point2D, q.x < img.width → q.y < img.height →
      (getColorAt img q.x q.y = BORDER_COLOR →
        (pass1 img).matrix (xyToIndex img q.x q.y) = 0)
      ∧ (getColorAt img q.x q.y ≠ BORDER_COLOR →
        1 ≤ (pass1 img).matrix (xyToIndex img q.x q.y)))
    ∧ (pass1 img).numBorder
        = (rasterPoints img).countP
            (fun q => decide (getColorAt img q.x q.y = BORDER_COLOR))
    ∧ (pass1 img).borderPixels = []
    ∧ (pass2 img (pass1 img).parents (pass1 img).matrix).borderPixels
        = ((rasterPoints img).filter
            (fun q => decide (getColorAt img q.x q.y = BORDER_COLOR))).map
            (fun q => ⟨q, BORDER_COLOR⟩) := by
  obtain ⟨hn1, hmat, hcnt, hbuf⟩ := pass1_inv img hwf
  obtain ⟨_, hbuf2, _⟩ := pass2_inv img (pass1 img).parents (pass1 img).matrix
  refine ⟨?_, hcnt, hbuf, hbuf2⟩
  intro q hqx hqy
  have hq : q ∈ rasterPoints img := (mem_rasterPoints img q).mpr ⟨hqx, hqy⟩
  exact ⟨(hmat q hq).1, fun hnb => ((hmat q hq).2 hnb).1⟩

/-- C5 counterexample: on the all-border 1×1 image, Pass 1 counts its one
border pixel and returns 1, but the border-pixel buffer is still empty when
Pass 1 returns — the pixel only enters the buffer during Pass 2. -/
theorem pass1_buffer_counterexample :
    getColorAt imgAllBorder 0 0 = BORDER_COLOR
    ∧ (pass1 imgAllBorder).numBorder = 1
    ∧ (pass1 imgAllBorder).borderPixels = []
    ∧ (pass2 imgAllBorder (pass1 imgAllBorder).parents
        (pass1 imgAllBorder).matrix).borderPixels
      = [⟨⟨0, 0⟩, BORDER_COLOR⟩] := by
  refine ⟨by decide, by decide, by decide, ?_⟩
  have h := pass1_effects imgAllBorder (by decide)
  rw [h.2.2.2]
  decide

/-- Witness for `pass1_effects` on the single-pixel red image. -/
theorem pass1_effects_witness :
    Image.WF imgSinglePixel
    ∧ ((∀ q : Point2D, q.x < imgSinglePixel.width →
          q.y < imgSinglePixel.height →
        (getColorAt imgSinglePixel q.x q.y = BORDER_COLOR →
          (pass1 imgSinglePixel).matrix
            (xyToIndex imgSinglePixel q.x q.y) = 0)
        ∧ (getColorAt imgSinglePixel q.x q.y ≠ BORDER_COLOR →
          1 ≤ (pass1 imgSinglePixel).matrix
            (xyToIndex imgSinglePixel q.x q.y)))
      ∧ (pass1 imgSinglePixel).numBorder
          = (rasterPoints imgSinglePixel).countP
              (fun q => decide (getColorAt imgSinglePixel q.x q.y
                = BORDER_COLOR))
      ∧ (pass1 imgSinglePixel).borderPixels = []
      ∧ (pass2 imgSinglePixel (pass1 imgSinglePixel).parents
          (pass1 imgSinglePixel).matrix).borderPixels
          = ((rasterPoints imgSinglePixel).filter
              (fun q => decide (getColorAt imgSinglePixel q.x q.y
                = BORDER_COLOR))).map
              (fun q => ⟨q, BORDER_COLOR⟩)) :=
  ⟨by decide, pass1_effects imgSinglePixel (by decide)⟩

/-- Witness for `findAllShapes_partition` on the single-pixel red image. -/
theorem findAllShapes_partition_witness :
    findAllShapes imgSinglePixel = some resSinglePixel
    ∧ resSinglePixel.fatal = false
    ∧ ((∀ q : Point2D, cntPoint resSinglePixel.shapes q
          = if q.x < imgSinglePixel.width ∧ q.y < imgSinglePixel.height
            then 1 else 0)
      ∧ List.Pairwise (fun s t => ∀ p1 ∈ s.pixels, ∀ p2 ∈ t.pixels,
          p1.point ≠ p2.point) resSinglePixel.shapes
      ∧ (∀ q : Point2D, getColorAt imgSinglePixel q.x q.y ≠ BORDER_COLOR →
          cntPoint (pass2 imgSinglePixel (pass1 imgSinglePixel).parents
            (pass1 imgSinglePixel).matrix).shapes q
            = if q.x < imgSinglePixel.width ∧ q.y < imgSinglePixel.height
              then 1 else 0)
      ∧ (∀ q : Point2D, getColorAt imgSinglePixel q.x q.y = BORDER_COLOR →
          cntPoint (pass2 imgSinglePixel (pass1 imgSinglePixel).parents
            (pass1 imgSinglePixel).matrix).shapes q = 0)) :=
  ⟨by decide, by decide,
   findAllShapes_partition imgSinglePixel resSinglePixel (by decide)
     (by decide)⟩

/-- Witness for `findAllShapes_all_border` on the all-border 1×1 image. -/
theorem findAllShapes_all_border_witness :
    Image.WF imgAllBorder ∧ 0 < imgAllBorder.width
    ∧ 0 < imgAllBorder.height
    ∧ findAllShapes imgAllBorder = some ⟨[], true, [], []⟩ :=
  ⟨by decide, by decide, by decide,
   findAllShapes_all_border imgAllBorder (by decide) (by decide) (by decide)
     (fun q hx hy => by
       have hx0 : q.x = 0 := by
         have : imgAllBorder.width = 1 := rfl
         omega
       have hy0 : q.y = 0 := by
         have : imgAllBorder.height = 1 := rfl
         omega
       rw [hx0, hy0]
       decide)⟩

/-- Witness for `findAllShapes_min_size_warnings` on the single-pixel red
image: its one shape has 1 ≤ 8 pixels and warning `(1, 1)` is emitted. -/
theorem findAllShapes_min_size_warnings_witness :
    findAllShapes imgSinglePixel = some resSinglePixel
    ∧ resSinglePixel.fatal = false
    ∧ ((∀ i, i < resSinglePixel.shapes.length →
        (((i + 1, (resSinglePixel.shapes.getD i default).pixels.length)
            ∈ resSinglePixel.minSizeWarnings)
          ↔ (resSinglePixel.shapes.getD i default).pixels.length ≤ 8))
      ∧ (∀ pr ∈ resSinglePixel.minSizeWarnings,
          ∃ j, j < resSinglePixel.shapes.length ∧
          pr = (j + 1, (resSinglePixel.shapes.getD j default).pixels.length)
          ∧ (resSinglePixel.shapes.getD j default).pixels.length ≤ 8)
      ∧ passesShapes imgSinglePixel = some resSinglePixel.shapes) :=
  ⟨by decide, by decide,
   findAllShapes_min_size_warnings imgSinglePixel resSinglePixel (by decide)
     (by decide)⟩

/-- Witness for `pass1_union_find_acyclic` at the state of Pass 1 on
`imgOverwrite` after 16 pixels, for label 3. -/
theorem pass1_union_find_acyclic_witness :
    parentsDecreasing (pass1After imgOverwrite 16).parents
    ∧ ¬ Relation.TransGen
        (fun u v => alookup (pass1After imgOverwrite 16).parents u = some v)
        3 3
    ∧ alookup (pass1After imgOverwrite 16).parents
        (getRootLabel (pass1After imgOverwrite 16).parents 3) = none
    ∧ (alookup (pass1After imgOverwrite 16).parents 3 = none →
        getRootLabel (pass1After imgOverwrite 16).parents 3 = 3) :=
  pass1_union_find_acyclic imgOverwrite 16 3

/-- Witness for `errorCheckAllShapes_return` on the single-pixel result. -/
theorem errorCheckAllShapes_return_witness :
    ((errorCheckAllShapes imgSinglePixel resSinglePixel.shapes).2.2 = none ↔
      ∀ shape ∈ resSinglePixel.shapes, ¬ shape.pixels.length ≤ 8)
    ∧ (∀ k, (errorCheckAllShapes imgSinglePixel
        resSinglePixel.shapes).2.2 = some k →
        k = resSinglePixel.shapes.countP
          (fun s => decide (s.pixels.length ≤ 8)) ∧ 0 < k)
    ∧ (∀ i, i < resSinglePixel.shapes.length →
        ((i + 1) ∈ (errorCheckAllShapes imgSinglePixel
            resSinglePixel.shapes).2.1 ↔
          isShapeTooLarge
            (calcShapeDims (resSinglePixel.shapes.getD i default)).1
            (calcShapeDims (resSinglePixel.shapes.getD i default)).2
            imgSinglePixel))
    ∧ (∀ n ∈ (errorCheckAllShapes imgSinglePixel
        resSinglePixel.shapes).2.1,
        ∃ j, j < resSinglePixel.shapes.length ∧ n = j + 1 ∧
          isShapeTooLarge
            (calcShapeDims (resSinglePixel.shapes.getD j default)).1
            (calcShapeDims (resSinglePixel.shapes.getD j default)).2
            imgSinglePixel) :=
  errorCheckAllShapes_return imgSinglePixel resSinglePixel.shapes

end MapNormalizer
